import Mathlib

/-!
Verification development for the Event-Situational-Awareness repository.

The Python sources are shallowly embedded:
* JSON-like dynamic values (the shape of every model response and of every
  record the agents exchange) become the inductive type `Json`; Python dicts
  are insertion-ordered association lists `List (String × Json)`.
* The external services (`google.generativeai` model calls, `json.loads`)
  are parameters of the embedded functions: a model call is an
  `Option (Except String String)` (uninitialized / raised exception /
  returned text) and the standard-library JSON parser is an abstract
  `loads : String → Option Json` (`none` models `json.JSONDecodeError`).
* Wall-clock timestamps (`datetime.now().isoformat()`) are threaded as a
  `now : String` parameter.
* Python floats are modelled as exact rationals `ℚ`.
-/

/-- Dynamic JSON-like values, the universe of Python values flowing through
the agents.  Python dicts are insertion-ordered association lists. -/
inductive Json : Type where
  | null : Json
  | bool : Bool → Json
  | num : ℚ → Json
  | str : String → Json
  | arr : List Json → Json
  | obj : List (String × Json) → Json
deriving Repr

/-- Python dict assignment `d[k] = v`: replace the value at the first
occurrence of `k`, or append `(k, v)` when `k` is absent (Python dicts keep
insertion order and dict keys are unique, so "first" is "the" occurrence). -/
def objSet (kvs : List (String × Json)) (k : String) (v : Json) :
    List (String × Json) :=
  match kvs with
  | [] => [(k, v)]
  | (k', v') :: rest =>
      if k' = k then (k', v) :: rest else (k', v') :: objSet rest k v

/-- Python truthiness of a JSON value (`if x:`). -/
def jsonTruthy : Json → Bool
  | Json.null => false
  | Json.bool b => b
  | Json.num q => if q = 0 then false else true
  | Json.str s => if s = "" then false else true
  | Json.arr l => !l.isEmpty
  | Json.obj l => !l.isEmpty

/-- Python `str(x)` for scalar JSON values.  The rendering of numbers and of
container values is abstracted (no code in this repository ever inspects the
resulting text, it is only wrapped into a single-element list). -/
def pyStr : Json → String
  | Json.null => "None"
  | Json.bool b => if b then "True" else "False"
  | Json.num q => toString q
  | Json.str s => s
  | Json.arr _ => "<list>"
  | Json.obj _ => "<dict>"

/-- Value of a decimal digit character. -/
def digitVal (c : Char) : ℕ := c.toNat - '0'.toNat

/-- Natural number denoted by a digit string. -/
def digitsToNat (cs : List Char) : ℕ :=
  cs.foldl (fun n c => n * 10 + digitVal c) 0

/-- All characters are decimal digits and there is at least one. -/
def isDigitRun (cs : List Char) : Bool :=
  !cs.isEmpty && cs.all Char.isDigit

/-- Mantissa of a Python float literal: `digits`, `digits.digits`,
`digits.` or `.digits`. -/
def parseMantissa (cs : List Char) : Option ℚ :=
  match cs.splitOn '.' with
  | [intPart] =>
      if isDigitRun intPart then some (digitsToNat intPart : ℚ) else none
  | [intPart, fracPart] =>
      if (isDigitRun intPart || isDigitRun fracPart)
          && intPart.all Char.isDigit && fracPart.all Char.isDigit then
        some ((digitsToNat intPart : ℚ)
          + (digitsToNat fracPart : ℚ) / ((10 : ℚ) ^ fracPart.length))
      else none
  | _ => none

/-- Signed decimal exponent. -/
def parseExponent (cs : List Char) : Option ℤ :=
  match cs with
  | '+' :: rest => if isDigitRun rest then some (digitsToNat rest : ℤ) else none
  | '-' :: rest => if isDigitRun rest then some (-(digitsToNat rest : ℤ)) else none
  | _ => if isDigitRun cs then some (digitsToNat cs : ℤ) else none

/-- Python `float(s)` on a string: strip whitespace, optional sign, decimal
mantissa, optional `e`/`E` exponent.  (The rarely used `inf`/`nan`/underscore
forms of the literal grammar are not modelled.) -/
def strToRat (s : String) : Option ℚ :=
  let cs := (s.toList.dropWhile (· = ' ')).reverse.dropWhile (· = ' ') |>.reverse
  let (sign, body) : ℚ × List Char :=
    match cs with
    | '+' :: rest => (1, rest)
    | '-' :: rest => (-1, rest)
    | _ => (1, cs)
  match body.splitOn 'e' with
  | [mant] =>
      match mant.splitOn 'E' with
      | [m] => (parseMantissa m).map (sign * ·)
      | [m, ex] =>
          match parseMantissa m, parseExponent ex with
          | some q, some e => some (sign * q * (10 : ℚ) ^ e)
          | _, _ => none
      | _ => none
  | [mant, ex] =>
      match parseMantissa mant, parseExponent ex with
      | some q, some e => some (sign * q * (10 : ℚ) ^ e)
      | _, _ => none
  | _ => none

/-- Python `float(x)` on a JSON value: numbers and booleans convert, numeric
strings parse, everything else raises `ValueError`/`TypeError` (`none`). -/
def pyFloat : Json → Option ℚ
  | Json.num q => some q
  | Json.bool b => some (if b then 1 else 0)
  | Json.str s => strToRat s
  | _ => none

/-- First-`{`-to-last-`}` extraction used by every response parser in the
repository: `json_start = text.find('{')`, `json_end = text.rfind('}') + 1`,
and the slice is taken only when `json_start >= 0 and json_end > json_start`. -/
def extractJsonSubstr (text : String) : Option String :=
  let cs := text.toList
  match cs.findIdx? (· = '{') with
  | none => none
  | some i =>
      match cs.reverse.findIdx? (· = '}') with
      | none => none
      | some jr =>
          let j := cs.length - 1 - jr
          if i ≤ j then some (String.mk ((cs.drop i).take (j + 1 - i))) else none

section VisionAgent

/-- Metadata of one extracted frame, as assembled by
`VideoProcessor.process_video_file` and read back (with defaults) by
`VisionAgent._parse_gemini_response`. -/
structure FrameData where
  zone : String
  frame_index : ℕ
  timestamp : String
  video_source : String
deriving Repr

/-- The `required_fields` default table of
`VisionAgent._validate_analysis_result`, in source order. -/
def requiredFieldsV : List (String × Json) :=
  [("zone", Json.str "unknown"),
   ("crowd_density", Json.str "moderate"),
   ("crowd_count_estimate", Json.str "unknown"),
   ("crowd_behavior", Json.str "calm"),
   ("potential_risks", Json.arr []),
   ("safety_observations", Json.arr []),
   ("infrastructure_status", Json.arr []),
   ("weather_conditions", Json.str "unknown"),
   ("lighting_conditions", Json.str "fair"),
   ("accessibility_issues", Json.arr []),
   ("recommended_actions", Json.arr []),
   ("confidence_score", Json.num (mkRat 1 2)),
   ("additional_notes", Json.str "")]

/-- The `list_fields` table of `VisionAgent._validate_analysis_result`. -/
def listFieldsV : List String :=
  ["potential_risks", "safety_observations", "infrastructure_status",
   "accessibility_issues", "recommended_actions"]

/-- One iteration of the backfill loop: `if field not in analysis:
analysis[field] = default`. -/
def backfillStep (kvs : List (String × Json)) (k : String) (d : Json) :
    List (String × Json) :=
  if (kvs.lookup k).isSome then kvs else kvs ++ [(k, d)]

/-- Source `for field, default in required_fields.items(): ...` — backfill absent
fields with their defaults. -/
def backfillFields (defaults : List (String × Json))
    (kvs : List (String × Json)) : List (String × Json) :=
  match defaults with
  | [] => kvs
  | (k, d) :: rest => backfillFields rest (backfillStep kvs k d)

/-- One iteration of the list-coercion loop: `if not
isinstance(analysis[field], list): analysis[field] = [str(analysis[field])]
if analysis[field] else []`.  The field is always present here (the source
runs this after the backfill loop; on an absent key Python would raise
`KeyError`). -/
def coerceStep (kvs : List (String × Json)) (f : String) :
    List (String × Json) :=
  match kvs.lookup f with
  | none => kvs
  | some (Json.arr l) => objSet kvs f (Json.arr l)
  | some v =>
      if jsonTruthy v then objSet kvs f (Json.arr [Json.str (pyStr v)])
      else objSet kvs f (Json.arr [])

/-- Source `for field in list_fields: ...` — coerce every declared list field. -/
def coerceListFields (fields : List String)
    (kvs : List (String × Json)) : List (String × Json) :=
  match fields with
  | [] => kvs
  | f :: rest => coerceListFields rest (coerceStep kvs f)

/-- Source `analysis['confidence_score'] = max(0.0, min(1.0,
float(analysis['confidence_score'])))`, with `0.5` on
`ValueError`/`TypeError`.  The field is always present here. -/
def clampConfidence (kvs : List (String × Json)) : List (String × Json) :=
  match kvs.lookup "confidence_score" with
  | none => kvs
  | some v =>
      match pyFloat v with
      | some q => objSet kvs "confidence_score" (Json.num (max 0 (min 1 q)))
      | none => objSet kvs "confidence_score" (Json.num (mkRat 1 2))

/-- Source `VisionAgent._validate_analysis_result`. -/
def validateAnalysisResult (kvs : List (String × Json)) :
    List (String × Json) :=
  clampConfidence (coerceListFields listFieldsV (backfillFields requiredFieldsV kvs))

/-- Source `VisionAgent._create_fallback_analysis`. -/
def createFallbackAnalysis (responseText zoneName : String) :
    List (String × Json) :=
  [("zone", Json.str zoneName),
   ("crowd_density", Json.str "moderate"),
   ("crowd_count_estimate", Json.str "unknown"),
   ("crowd_behavior", Json.str "calm"),
   ("potential_risks", Json.arr [Json.str "Analysis parsing incomplete"]),
   ("safety_observations", Json.arr [Json.str "Manual review recommended"]),
   ("infrastructure_status", Json.arr [Json.str "Status unclear"]),
   ("weather_conditions", Json.str "unknown"),
   ("lighting_conditions", Json.str "fair"),
   ("accessibility_issues", Json.arr []),
   ("recommended_actions", Json.arr [Json.str "Review raw analysis output"]),
   ("confidence_score", Json.num (mkRat 3 10)),
   ("additional_notes",
     Json.str ("Raw analysis: " ++ responseText.take 500 ++ "...")),
   ("parsing_error", Json.bool true)]

/-- Source `VisionAgent._create_error_response`. -/
def createErrorResponseV (errorMessage : String) : List (String × Json) :=
  [("zone", Json.str "unknown"),
   ("crowd_density", Json.str "unknown"),
   ("crowd_count_estimate", Json.str "error"),
   ("crowd_behavior", Json.str "unknown"),
   ("potential_risks", Json.arr [Json.str "Analysis system error"]),
   ("safety_observations", Json.arr [Json.str "System malfunction detected"]),
   ("infrastructure_status", Json.arr [Json.str "Unable to assess"]),
   ("weather_conditions", Json.str "unknown"),
   ("lighting_conditions", Json.str "unknown"),
   ("accessibility_issues", Json.arr []),
   ("recommended_actions", Json.arr [Json.str "Check system configuration"]),
   ("confidence_score", Json.num 0),
   ("additional_notes", Json.str errorMessage),
   ("error", Json.bool true),
   ("error_message", Json.str errorMessage)]

/-- The `frame_metadata` object added by `_parse_gemini_response`. -/
def frameMeta (now : String) (fd : FrameData) : Json :=
  Json.obj
    [("frame_index", Json.num fd.frame_index),
     ("timestamp", Json.str fd.timestamp),
     ("video_source", Json.str fd.video_source),
     ("analysis_timestamp", Json.str now)]

/-- Source `VisionAgent._parse_gemini_response`.  `loads` stands for `json.loads`
(`none` = `json.JSONDecodeError`, which the source catches and answers with
the fallback record).  When the parsed payload is not a dict, the item
assignment `analysis['frame_metadata'] = ...` raises `TypeError`, landing in
the generic `except Exception` branch (the interpolated exception text is
abstracted). -/
def parseGeminiResponse (loads : String → Option Json) (now : String)
    (responseText : String) (fd : FrameData) : List (String × Json) :=
  match extractJsonSubstr responseText with
  | none =>
      validateAnalysisResult
        (objSet (createFallbackAnalysis responseText fd.zone)
          "frame_metadata" (frameMeta now fd))
  | some sub =>
      match loads sub with
      | none => createFallbackAnalysis responseText fd.zone
      | some (Json.obj kvs) =>
          validateAnalysisResult (objSet kvs "frame_metadata" (frameMeta now fd))
      | some _ => createErrorResponseV "Response processing failed: TypeError"

/-- Source `VisionAgent.analyze_frame`: the vision model is `none` when
initialization failed, `some (.error e)` when the generate call raised, and
`some (.ok text)` when it returned response text. -/
def analyzeFrame (loads : String → Option Json) (now : String)
    (visionModel : Option (Except String String)) (fd : FrameData) :
    List (String × Json) :=
  match visionModel with
  | none => createErrorResponseV "Vision model not initialized"
  | some (Except.error e) => createErrorResponseV ("Analysis failed: " ++ e)
  | some (Except.ok text) => parseGeminiResponse loads now text fd

/-- Schema field names of the per-frame analysis. -/
def schemaFieldsV : List String := requiredFieldsV.map Prod.fst

/-- Decidable well-formedness of a per-frame record: every schema field
present, every declared list field an actual list, and the confidence score a
number in `[0, 1]`. -/
def wellFormedB (kvs : List (String × Json)) : Bool :=
  schemaFieldsV.all (fun f => (kvs.lookup f).isSome)
  && listFieldsV.all (fun f =>
      match kvs.lookup f with
      | some (Json.arr _) => true
      | _ => false)
  && (match kvs.lookup "confidence_score" with
      | some (Json.num q) => decide (0 ≤ q) && decide (q ≤ 1)
      | _ => false)

end VisionAgent

section LookupLemmas

lemma lookup_cons_eq (k : String) (v : Json) (rest : List (String × Json)) :
    ((k, v) :: rest).lookup k = some v := by
  simp [List.lookup]

lemma lookup_cons_ne (k' : String) (v : Json) (rest : List (String × Json))
    (k : String) (h : k ≠ k') :
    ((k', v) :: rest).lookup k = rest.lookup k := by
  have hb : (k == k') = false := beq_eq_false_iff_ne.mpr h
  simp [List.lookup, hb]

lemma lookup_append (l₁ l₂ : List (String × Json)) (a : String) :
    (l₁ ++ l₂).lookup a = ((l₁.lookup a).or (l₂.lookup a)) := by
  induction l₁ with
  | nil => simp [List.lookup]
  | cons p rest ih =>
      obtain ⟨k, v⟩ := p
      by_cases h : a = k
      · subst h
        simp [lookup_cons_eq]
      · rw [List.cons_append, lookup_cons_ne _ _ _ _ h, lookup_cons_ne _ _ _ _ h, ih]

lemma objSet_nil (k : String) (v : Json) : objSet [] k v = [(k, v)] := rfl

lemma objSet_cons_eq (k : String) (v' : Json) (rest : List (String × Json))
    (v : Json) : objSet ((k, v') :: rest) k v = (k, v) :: rest := by
  simp [objSet]

lemma objSet_cons_ne (k' : String) (v' : Json) (rest : List (String × Json))
    (k : String) (v : Json) (h : k' ≠ k) :
    objSet ((k', v') :: rest) k v = (k', v') :: objSet rest k v := by
  simp [objSet, h]

lemma lookup_objSet_self (kvs : List (String × Json)) (k : String) (v : Json) :
    (objSet kvs k v).lookup k = some v := by
  induction kvs with
  | nil => rw [objSet_nil, lookup_cons_eq]
  | cons p rest ih =>
      obtain ⟨k', v'⟩ := p
      by_cases h : k' = k
      · subst h
        rw [objSet_cons_eq, lookup_cons_eq]
      · rw [objSet_cons_ne _ _ _ _ _ h, lookup_cons_ne _ _ _ _ (Ne.symm h), ih]

lemma lookup_objSet_ne (kvs : List (String × Json)) (k : String) (v : Json)
    (f : String) (h : f ≠ k) :
    (objSet kvs k v).lookup f = kvs.lookup f := by
  induction kvs with
  | nil => rw [objSet_nil, lookup_cons_ne _ _ _ _ h]
  | cons p rest ih =>
      obtain ⟨k', v'⟩ := p
      by_cases h' : k' = k
      · subst h'
        rw [objSet_cons_eq, lookup_cons_ne _ _ _ _ h, lookup_cons_ne _ _ _ _ h]
      · by_cases h'' : f = k'
        · subst h''
          rw [objSet_cons_ne _ _ _ _ _ h', lookup_cons_eq, lookup_cons_eq]
        · rw [objSet_cons_ne _ _ _ _ _ h', lookup_cons_ne _ _ _ _ h'',
            lookup_cons_ne _ _ _ _ h'', ih]

lemma backfillStep_of_some (kvs : List (String × Json)) (k : String) (d : Json)
    (f : String) (v : Json) (h : kvs.lookup f = some v) :
    (backfillStep kvs k d).lookup f = some v := by
  unfold backfillStep
  split
  · exact h
  · simp [lookup_append, h]

lemma backfillStep_isSome_mono (kvs : List (String × Json)) (k : String)
    (d : Json) (f : String) (h : (kvs.lookup f).isSome) :
    ((backfillStep kvs k d).lookup f).isSome := by
  obtain ⟨v, hv⟩ := Option.isSome_iff_exists.mp h
  simp [backfillStep_of_some kvs k d f v hv]

lemma backfillStep_self_isSome (kvs : List (String × Json)) (k : String)
    (d : Json) : ((backfillStep kvs k d).lookup k).isSome := by
  unfold backfillStep
  split
  · assumption
  · rename_i hk
    have hn : kvs.lookup k = none := Option.not_isSome_iff_eq_none.mp hk
    simp [lookup_append, hn, lookup_cons_eq]

lemma lookup_backfill_of_some (defaults : List (String × Json))
    (kvs : List (String × Json)) (f : String) (v : Json)
    (h : kvs.lookup f = some v) :
    (backfillFields defaults kvs).lookup f = some v := by
  induction defaults generalizing kvs with
  | nil => simpa [backfillFields] using h
  | cons p rest ih =>
      obtain ⟨k, d⟩ := p
      exact ih _ (backfillStep_of_some kvs k d f v h)

lemma isSome_backfill_mono (defaults : List (String × Json))
    (kvs : List (String × Json)) (f : String)
    (h : (kvs.lookup f).isSome) :
    ((backfillFields defaults kvs).lookup f).isSome := by
  obtain ⟨v, hv⟩ := Option.isSome_iff_exists.mp h
  simp [lookup_backfill_of_some defaults kvs f v hv]

lemma backfill_mem_isSome (defaults : List (String × Json))
    (kvs : List (String × Json)) :
    ∀ p ∈ defaults, ((backfillFields defaults kvs).lookup p.1).isSome := by
  induction defaults generalizing kvs with
  | nil => intro p hp; cases hp
  | cons q rest ih =>
      intro p hp
      obtain ⟨k, d⟩ := q
      rcases List.mem_cons.mp hp with h | h
      · subst h
        exact isSome_backfill_mono rest _ k (backfillStep_self_isSome kvs k d)
      · exact ih _ p h

lemma coerceStep_lookup_ne (kvs : List (String × Json)) (g f : String)
    (h : f ≠ g) : (coerceStep kvs g).lookup f = kvs.lookup f := by
  rcases hv : kvs.lookup g with _ | v
  · simp only [coerceStep, hv]
  · cases v <;> simp only [coerceStep, hv] <;>
      first
        | exact lookup_objSet_ne _ _ _ _ h
        | (split <;> exact lookup_objSet_ne _ _ _ _ h)

lemma coerceStep_arr (kvs : List (String × Json)) (g : String)
    (h : (kvs.lookup g).isSome) :
    ∃ l, (coerceStep kvs g).lookup g = some (Json.arr l) := by
  rcases hv : kvs.lookup g with _ | v
  · simp [hv] at h
  · cases v <;> simp only [coerceStep, hv] <;>
      first
        | exact ⟨_, lookup_objSet_self _ _ _⟩
        | (split <;> exact ⟨_, lookup_objSet_self _ _ _⟩)

lemma coerceStep_isSome_mono (kvs : List (String × Json)) (g f : String)
    (h : (kvs.lookup f).isSome) :
    ((coerceStep kvs g).lookup f).isSome := by
  by_cases hfg : f = g
  · subst hfg
    obtain ⟨l, hl⟩ := coerceStep_arr kvs f h
    simp [hl]
  · simpa [coerceStep_lookup_ne kvs g f hfg] using h

lemma lookup_coerce_not_mem (fields : List String)
    (kvs : List (String × Json)) (f : String) (h : f ∉ fields) :
    (coerceListFields fields kvs).lookup f = kvs.lookup f := by
  induction fields generalizing kvs with
  | nil => simp [coerceListFields]
  | cons g rest ih =>
      have hg : f ≠ g := fun he => h (he ▸ List.mem_cons_self g rest)
      have hr : f ∉ rest := fun he => h (List.mem_cons_of_mem g he)
      simp only [coerceListFields]
      rw [ih _ hr, coerceStep_lookup_ne kvs g f hg]

lemma isSome_coerce_mono (fields : List String)
    (kvs : List (String × Json)) (f : String)
    (h : (kvs.lookup f).isSome) :
    ((coerceListFields fields kvs).lookup f).isSome := by
  induction fields generalizing kvs with
  | nil => simpa [coerceListFields] using h
  | cons g rest ih =>
      simp only [coerceListFields]
      exact ih _ (coerceStep_isSome_mono kvs g f h)

lemma coerce_all_arr (fields : List String) (kvs : List (String × Json))
    (hpres : ∀ f ∈ fields, (kvs.lookup f).isSome) :
    ∀ f ∈ fields, ∃ l, (coerceListFields fields kvs).lookup f = some (Json.arr l) := by
  induction fields generalizing kvs with
  | nil => intro f hf; cases hf
  | cons g rest ih =>
      intro f hf
      rcases List.mem_cons.mp hf with h | h
      · subst h
        by_cases hfr : f ∈ rest
        · simp only [coerceListFields]
          exact ih _
            (fun f' hf' => coerceStep_isSome_mono kvs f f'
              (hpres f' (List.mem_cons_of_mem f hf'))) f hfr
        · simp only [coerceListFields]
          obtain ⟨l, hl⟩ := coerceStep_arr kvs f (hpres f (List.mem_cons_self _ _))
          exact ⟨l, by rw [lookup_coerce_not_mem rest _ f hfr]; exact hl⟩
      · simp only [coerceListFields]
        exact ih _
          (fun f' hf' => coerceStep_isSome_mono kvs g f'
            (hpres f' (List.mem_cons_of_mem g hf'))) f h

lemma clamp_lookup_ne (kvs : List (String × Json)) (f : String)
    (h : f ≠ "confidence_score") :
    (clampConfidence kvs).lookup f = kvs.lookup f := by
  rcases hv : kvs.lookup "confidence_score" with _ | v
  · simp only [clampConfidence, hv]
  · rcases hq : pyFloat v with _ | q <;>
      simp only [clampConfidence, hv, hq] <;>
      exact lookup_objSet_ne _ _ _ _ h

lemma clamp_lookup_conf (kvs : List (String × Json))
    (h : (kvs.lookup "confidence_score").isSome) :
    ∃ q, (clampConfidence kvs).lookup "confidence_score" = some (Json.num q)
      ∧ 0 ≤ q ∧ q ≤ 1 := by
  rcases hv : kvs.lookup "confidence_score" with _ | v
  · simp [hv] at h
  · rcases hq : pyFloat v with _ | q
    · simp only [clampConfidence, hv, hq]
      exact ⟨mkRat 1 2, lookup_objSet_self _ _ _, by decide⟩
    · simp only [clampConfidence, hv, hq]
      refine ⟨max 0 (min 1 q), lookup_objSet_self _ _ _, le_max_left _ _, ?_⟩
      exact max_le (by norm_num) (min_le_left _ _)

lemma clamp_of_nonnumeric (kvs : List (String × Json)) (v : Json)
    (h : kvs.lookup "confidence_score" = some v) (hv : pyFloat v = none) :
    (clampConfidence kvs).lookup "confidence_score" = some (Json.num (mkRat 1 2)) := by
  simp only [clampConfidence, h, hv]
  exact lookup_objSet_self _ _ _

end LookupLemmas

section VisionTheorems

lemma wellFormedB_validate (kvs : List (String × Json)) :
    wellFormedB (validateAnalysisResult kvs) = true := by
  have hpresb : ∀ f ∈ schemaFieldsV,
      (((backfillFields requiredFieldsV kvs).lookup f)).isSome := by
    intro f hf
    obtain ⟨p, hp, hpf⟩ := List.mem_map.mp hf
    exact hpf ▸ backfill_mem_isSome requiredFieldsV kvs p hp
  have hlist : ∀ f ∈ listFieldsV,
      ∃ l, (coerceListFields listFieldsV (backfillFields requiredFieldsV kvs)).lookup f
        = some (Json.arr l) := by
    refine coerce_all_arr listFieldsV _ (fun f hf => hpresb f ?_)
    revert hf; revert f; decide
  have hconfsome :
      ((coerceListFields listFieldsV (backfillFields requiredFieldsV kvs)).lookup
        "confidence_score").isSome := by
    refine isSome_coerce_mono _ _ _ (hpresb "confidence_score" ?_)
    decide
  obtain ⟨q, hq, hq0, hq1⟩ := clamp_lookup_conf _ hconfsome
  simp only [wellFormedB, validateAnalysisResult, Bool.and_eq_true, List.all_eq_true]
  refine ⟨⟨?_, ?_⟩, ?_⟩
  · intro f hf
    by_cases hc : f = "confidence_score"
    · subst hc; simp [hq]
    · rw [clamp_lookup_ne _ _ hc]
      exact (isSome_coerce_mono _ _ _ (hpresb f hf))
  · intro f hf
    have hc : f ≠ "confidence_score" := by
      revert hf; revert f; decide
    obtain ⟨l, hl⟩ := hlist f hf
    rw [clamp_lookup_ne _ _ hc, hl]
  · rw [hq]
    simp [hq0, hq1]

lemma wellFormedB_fallback (text z : String) :
    wellFormedB (createFallbackAnalysis text z) = true := by
  rfl

lemma wellFormedB_error (msg : String) :
    wellFormedB (createErrorResponseV msg) = true := by
  rfl

lemma wellFormedB_parse (loads : String → Option Json) (now text : String)
    (fd : FrameData) :
    wellFormedB (parseGeminiResponse loads now text fd) = true := by
  rcases he : extractJsonSubstr text with _ | sub
  · simp only [parseGeminiResponse, he]
    exact wellFormedB_validate _
  · rcases hl : loads sub with _ | j
    · simp only [parseGeminiResponse, he, hl]
      exact wellFormedB_fallback text fd.zone
    · cases j with
      | obj kvs =>
          simp only [parseGeminiResponse, he, hl]
          exact wellFormedB_validate _
      | null =>
          simp only [parseGeminiResponse, he, hl]
          exact wellFormedB_error _
      | bool b =>
          simp only [parseGeminiResponse, he, hl]
          exact wellFormedB_error _
      | num q =>
          simp only [parseGeminiResponse, he, hl]
          exact wellFormedB_error _
      | str s =>
          simp only [parseGeminiResponse, he, hl]
          exact wellFormedB_error _
      | arr l =>
          simp only [parseGeminiResponse, he, hl]
          exact wellFormedB_error _

/-- C1: for every raw model-response text (and any behaviour of the JSON
parser), the per-frame parse/validate/repair pipeline returns a record
containing every schema field, with every declared list field an actual list
and the confidence score a number in `[0, 1]`; moreover when a parsed object
carries a non-numeric `confidence_score`, the result's score is `0.5`. -/
theorem C1_validate_repair_schema (loads : String → Option Json)
    (now text : String) (fd : FrameData) :
    wellFormedB (parseGeminiResponse loads now text fd) = true ∧
    (∀ sub kvs0 v, extractJsonSubstr text = some sub →
      loads sub = some (Json.obj kvs0) →
      kvs0.lookup "confidence_score" = some v →
      pyFloat v = none →
      (parseGeminiResponse loads now text fd).lookup "confidence_score"
        = some (Json.num (mkRat 1 2))) := by
  refine ⟨wellFormedB_parse loads now text fd, ?_⟩
  intro sub kvs0 v he hl hcv hnn
  simp only [parseGeminiResponse, he, hl]
  have h1 : (objSet kvs0 "frame_metadata" (frameMeta now fd)).lookup
      "confidence_score" = some v := by
    rw [lookup_objSet_ne _ _ _ _ (by decide)]
    exact hcv
  have h2 : ((backfillFields requiredFieldsV
      (objSet kvs0 "frame_metadata" (frameMeta now fd))).lookup
      "confidence_score") = some v :=
    lookup_backfill_of_some _ _ _ _ h1
  have h3 : ((coerceListFields listFieldsV (backfillFields requiredFieldsV
      (objSet kvs0 "frame_metadata" (frameMeta now fd)))).lookup
      "confidence_score") = some v := by
    rw [lookup_coerce_not_mem _ _ _ (by decide)]
    exact h2
  exact clamp_of_nonnumeric _ v h3 hnn

/-- Witness for C1 at a concrete response: the payload parses to an object
whose `confidence_score` is a list (non-numeric), and the repaired record is
well-formed with score `0.5`. -/
theorem C1_validate_repair_schema_witness :
    wellFormedB (parseGeminiResponse
      (fun _ => some (Json.obj [("confidence_score", Json.arr [])]))
      "2024-01-01" "\x7b\x7d" ⟨"Zone A", 0, "Frame_000", "zone_a.mp4"⟩) = true ∧
    (parseGeminiResponse
      (fun _ => some (Json.obj [("confidence_score", Json.arr [])]))
      "2024-01-01" "\x7b\x7d" ⟨"Zone A", 0, "Frame_000", "zone_a.mp4"⟩).lookup
      "confidence_score" = some (Json.num (mkRat 1 2)) := by
  refine ⟨(C1_validate_repair_schema _ _ _ _).1, ?_⟩
  exact (C1_validate_repair_schema
      (fun _ => some (Json.obj [("confidence_score", Json.arr [])]))
      "2024-01-01" "\x7b\x7d" ⟨"Zone A", 0, "Frame_000", "zone_a.mp4"⟩).2
    "\x7b\x7d" [("confidence_score", Json.arr [])] (Json.arr []) rfl rfl rfl rfl

/-- C8 fails as stated: on the error path the pipeline sets `crowd_density`
to `"unknown"`, which is not one of `low`/`moderate`/`high`/`critical`.
Concrete input: the vision model is uninitialized (`analyze_frame` returns
`_create_error_response("Vision model not initialized")`). -/
theorem C8_counterexample :
    (analyzeFrame (fun _ => none) "2024-01-01" none
        ⟨"Zone A", 0, "Frame_000", "zone_a.mp4"⟩).lookup "crowd_density"
      = some (Json.str "unknown") ∧
    "unknown" ∉ (["low", "moderate", "high", "critical"] : List String) := by
  constructor
  · rfl
  · decide

/-- C8 amended: every record the vision pipeline produces — parsed, fallback
or error path — has every schema field present, list fields as lists and the
confidence score in `[0, 1]`; the parsing-failure fallback fixes
`crowd_density` to `"moderate"` (inside the enum), but the error path fixes
it to `"unknown"` (outside the enum), and the validator passes a parsed
`crowd_density` through without enforcing enum membership. -/
theorem C8_record_invariant (loads : String → Option Json) (now : String)
    (visionModel : Option (Except String String)) (fd : FrameData)
    (text z msg : String) :
    wellFormedB (analyzeFrame loads now visionModel fd) = true ∧
    (createFallbackAnalysis text z).lookup "crowd_density"
      = some (Json.str "moderate") ∧
    (createErrorResponseV msg).lookup "crowd_density"
      = some (Json.str "unknown") := by
  refine ⟨?_, rfl, rfl⟩
  cases visionModel with
  | none => exact wellFormedB_error _
  | some mdl =>
      cases mdl with
      | error e => exact wellFormedB_error _
      | ok t => exact wellFormedB_parse loads now t fd

end VisionTheorems

section Aggregator

/-- The fields of a validated per-frame analysis record that
`VisionAgent.get_zone_summary` (and the summarizer's insight extraction)
reads.  `Option` models dict-key absence (the source reads every field with
`.get(field, default)`); `err` is the truthiness of the `error` key.  Values
carry the types the validator guarantees. -/
structure AnalysisRecord where
  zone : Option String
  err : Bool
  crowd_density : Option String
  crowd_behavior : Option String
  potential_risks : Option (List String)
  recommended_actions : Option (List String)
  confidence_score : Option ℚ

/-- Source `density_counts[density] = density_counts.get(density, 0) + 1` on an
insertion-ordered dict: increment in place, or append a fresh key. -/
def bump (cs : List (String × ℕ)) (k : String) : List (String × ℕ) :=
  match cs with
  | [] => [(k, 1)]
  | (k', n) :: rest =>
      if k' = k then (k', n + 1) :: rest else (k', n) :: bump rest k

/-- Accumulators of the aggregation loop in `get_zone_summary`. -/
structure AggState where
  counts : List (String × ℕ)
  behaviors : List String
  risks : List String
  recs : List String
  confs : List ℚ

/-- One iteration of the `for analysis in zone_analyses` loop of
`get_zone_summary` (error-flagged records are skipped by `continue`). -/
def aggStep (st : AggState) (a : AnalysisRecord) : AggState :=
  if a.err then st
  else
    { counts := bump st.counts (a.crowd_density.getD "moderate"),
      behaviors := st.behaviors ++ [a.crowd_behavior.getD "calm"],
      risks := st.risks ++ a.potential_risks.getD [],
      recs := st.recs ++ a.recommended_actions.getD [],
      confs := st.confs ++
        (match a.confidence_score with
         | some c => [c]
         | none => []) }

/-- The full aggregation loop. -/
def aggregate (l : List AnalysisRecord) : AggState :=
  l.foldl aggStep ⟨[], [], [], [], []⟩

/-- Source `max(iterable, key=lambda x: x[1])`: Python's `max` keeps the first item
attaining the maximal key, so a strictly greater candidate is needed to
displace the current one. -/
def pickMax (c : String × ℕ) (rest : List (String × ℕ)) : String × ℕ :=
  rest.foldl (fun best p => if best.2 < p.2 then p else best) c

/-- Source `max(density_counts.items(), key=lambda x: x[1])[0] if density_counts
else 'moderate'`. -/
def mostCommonDensity (cs : List (String × ℕ)) : String :=
  match cs with
  | [] => "moderate"
  | c :: rest => (pickMax c rest).1

/-- Banker's rounding (round-half-to-even) of a rational to an integer,
modelling Python's `round`. -/
def roundHalfEven (x : ℚ) : ℤ :=
  let n := x.floor
  let r := x - (n : ℚ)
  if r < mkRat 1 2 then n
  else if mkRat 1 2 < r then n + 1
  else if n % 2 = 0 then n else n + 1

/-- Source `round(x, 2)`, in exact rational arithmetic. -/
def round2 (x : ℚ) : ℚ := mkRat (roundHalfEven (x * 100)) 100

/-- Result record of `get_zone_summary`.  The wall-clock
`analysis_timestamp` metadata field is outside the model. -/
structure ZoneSummary where
  zone : String
  total_frames_analyzed : ℕ
  successful_analyses : ℕ
  overall_crowd_density : String
  density_distribution : List (String × ℕ)
  common_behaviors : List String
  aggregated_risks : List String
  priority_actions : List String
  average_confidence : ℚ

/-- Contract of Python's `list(set(xs))`: some enumeration of the distinct
elements, in an interpreter-dependent order.  Any function satisfying this
predicate is an admissible implementation. -/
def SetSpec (σ : List String → List String) : Prop :=
  ∀ xs a, a ∈ σ xs ↔ a ∈ xs

/-- Source `VisionAgent.get_zone_summary`, parameterized by the `list(set(·))`
enumeration `σ`.  The source returns a bare error dict on an empty input
list; that early return is modelled as `none`. -/
def getZoneSummary (σ : List String → List String)
    (l : List AnalysisRecord) : Option ZoneSummary :=
  match l with
  | [] => none
  | a0 :: _ =>
      let st := aggregate l
      some
        { zone := a0.zone.getD "Unknown",
          total_frames_analyzed := l.length,
          successful_analyses := (l.filter (fun a => !a.err)).length,
          overall_crowd_density := mostCommonDensity st.counts,
          density_distribution := st.counts,
          common_behaviors := σ st.behaviors,
          aggregated_risks := σ st.risks,
          priority_actions := σ st.recs,
          average_confidence :=
            round2 (if st.confs.isEmpty then mkRat 1 2
              else st.confs.sum / (st.confs.length : ℚ)) }

/-- Densities of the non-error records, in input order (absent densities
default to `"moderate"` via `.get`). -/
def denlist (l : List AnalysisRecord) : List String :=
  (l.filter (fun a => !a.err)).map (fun a => a.crowd_density.getD "moderate")

/-- Concatenation of the `potential_risks` of the non-error records. -/
def allRisks (l : List AnalysisRecord) : List String :=
  (l.filter (fun a => !a.err)).flatMap (fun a => a.potential_risks.getD [])

/-- The insertion-ordered counting dict built over a list of keys. -/
def buildCounts (ds : List String) : List (String × ℕ) :=
  ds.foldl bump []

end Aggregator

section AggregatorLemmas

lemma denlist_cons_err (a : AnalysisRecord) (rest : List AnalysisRecord)
    (h : a.err = true) : denlist (a :: rest) = denlist rest := by
  simp [denlist, List.filter_cons, h]

lemma denlist_cons_ok (a : AnalysisRecord) (rest : List AnalysisRecord)
    (h : a.err = false) :
    denlist (a :: rest) = a.crowd_density.getD "moderate" :: denlist rest := by
  simp [denlist, List.filter_cons, h]

lemma foldl_aggStep_counts (l : List AnalysisRecord) :
    ∀ st : AggState,
      (l.foldl aggStep st).counts = (denlist l).foldl bump st.counts := by
  induction l with
  | nil => intro st; simp [denlist]
  | cons a rest ih =>
      intro st
      by_cases he : a.err
      · rw [List.foldl_cons, denlist_cons_err a rest he]
        have h1 : aggStep st a = st := by simp [aggStep, he]
        rw [h1, ih]
      · rw [List.foldl_cons,
          denlist_cons_ok a rest (Bool.not_eq_true _ ▸ he), List.foldl_cons, ih]
        have h1 : (aggStep st a).counts
            = bump st.counts (a.crowd_density.getD "moderate") := by
          simp [aggStep, he]
        rw [h1]

lemma foldl_aggStep_risks (l : List AnalysisRecord) :
    ∀ st : AggState, (l.foldl aggStep st).risks = st.risks ++ allRisks l := by
  induction l with
  | nil => intro st; simp [allRisks]
  | cons a rest ih =>
      intro st
      by_cases he : a.err
      · have hd : allRisks (a :: rest) = allRisks rest := by
          simp [allRisks, List.filter_cons, he]
        have h1 : aggStep st a = st := by simp [aggStep, he]
        rw [List.foldl_cons, hd, h1, ih]
      · have hd : allRisks (a :: rest)
            = a.potential_risks.getD [] ++ allRisks rest := by
          simp [allRisks, List.filter_cons, he]
        have h1 : (aggStep st a).risks
            = st.risks ++ a.potential_risks.getD [] := by
          simp [aggStep, he]
        rw [List.foldl_cons, ih, h1, hd, List.append_assoc]

lemma aggregate_counts (l : List AnalysisRecord) :
    (aggregate l).counts = buildCounts (denlist l) :=
  foldl_aggStep_counts l _

lemma aggregate_risks (l : List AnalysisRecord) :
    (aggregate l).risks = allRisks l := by
  have h := foldl_aggStep_risks l ⟨[], [], [], [], []⟩
  simpa [aggregate] using h

lemma bump_not_mem (cs : List (String × ℕ)) (k : String)
    (h : k ∉ cs.map Prod.fst) : bump cs k = cs ++ [(k, 1)] := by
  induction cs with
  | nil => rfl
  | cons p rest ih =>
      obtain ⟨k', n⟩ := p
      have hk : k' ≠ k := fun he => h (by simp [he])
      have hr : k ∉ rest.map Prod.fst := fun hm => h (by simp [hm])
      simp [bump, hk, ih hr]

lemma bump_decomp (cs1 : List (String × ℕ)) (k : String) (m : ℕ)
    (cs2 : List (String × ℕ)) (h : k ∉ cs1.map Prod.fst) :
    bump (cs1 ++ (k, m) :: cs2) k = cs1 ++ (k, m + 1) :: cs2 := by
  induction cs1 with
  | nil => simp [bump]
  | cons p rest ih =>
      obtain ⟨k', n⟩ := p
      have hk : k' ≠ k := fun he => h (by simp [he])
      have hr : k ∉ rest.map Prod.fst := fun hm => h (by simp [hm])
      simp [bump, hk, ih hr]

/-- Invariant tying the counting dict to the list of keys already processed:
every entry's value is that key's multiplicity, every processed key has an
entry, and entries are ordered by first occurrence. -/
def CountsOK (ds : List String) (cs : List (String × ℕ)) : Prop :=
  (∀ p ∈ cs, p.1 ∈ ds ∧ p.2 = ds.count p.1) ∧
  (∀ k ∈ ds, (k, ds.count k) ∈ cs) ∧
  cs.Pairwise (fun p q => ds.indexOf p.1 < ds.indexOf q.1)

lemma countsOK_nil : CountsOK [] [] := ⟨by simp, by simp, by simp⟩

lemma count_snoc_ne (ds : List String) (k a : String) (h : a ≠ k) :
    (ds ++ [k]).count a = ds.count a := by
  simp [List.count_append, List.count_cons, Ne.symm h]

lemma count_snoc_self (ds : List String) (k : String) :
    (ds ++ [k]).count k = ds.count k + 1 := by
  simp [List.count_append, List.count_cons]

lemma indexOf_snoc_lt (ds : List String) (k a : String) (ha : a ∈ ds)
    (hk : k ∉ ds) : (ds ++ [k]).indexOf a < (ds ++ [k]).indexOf k := by
  rw [List.indexOf_append_of_mem ha, List.indexOf_append_of_not_mem hk,
    List.indexOf_cons_self, Nat.add_zero]
  exact List.indexOf_lt_length.mpr ha

lemma countsOK_snoc (ds : List String) (cs : List (String × ℕ)) (k : String)
    (h : CountsOK ds cs) : CountsOK (ds ++ [k]) (bump cs k) := by
  obtain ⟨hP1, hP2, hP3⟩ := h
  by_cases hk : k ∈ cs.map Prod.fst
  · -- k already has an entry: it is bumped in place
    obtain ⟨⟨k0, m⟩, hp, hpk⟩ := List.mem_map.mp hk
    dsimp at hpk
    subst hpk
    obtain ⟨s, t, hst⟩ := List.append_of_mem hp
    have hsP3 := hst ▸ hP3
    obtain ⟨hs, hkt, hcross⟩ := List.pairwise_append.mp hsP3
    obtain ⟨hkt1, ht⟩ := List.pairwise_cons.mp hkt
    have hkeys_s : ∀ q ∈ s, q.1 ≠ k0 := by
      intro q hq he
      have := hcross q hq (k0, m) (List.mem_cons_self _ _)
      rw [he] at this
      exact lt_irrefl _ this
    have hkeys_t : ∀ q ∈ t, q.1 ≠ k0 := by
      intro q hq he
      have := hkt1 q hq
      rw [he] at this
      exact lt_irrefl _ this
    have hks : k0 ∉ s.map Prod.fst := by
      intro hmem
      obtain ⟨q, hq, hq1⟩ := List.mem_map.mp hmem
      exact hkeys_s q hq hq1
    have hkds : k0 ∈ ds := (hP1 _ hp).1
    have hm : m = ds.count k0 := (hP1 _ hp).2
    have hbump : bump cs k0 = s ++ (k0, m + 1) :: t := by
      rw [hst]
      exact bump_decomp s k0 m t hks
    rw [hbump]
    have hsub_s : ∀ q ∈ s, q ∈ cs := fun q hq =>
      hst ▸ List.mem_append_left _ hq
    have hsub_t : ∀ q ∈ t, q ∈ cs := fun q hq =>
      hst ▸ List.mem_append_right _ (List.mem_cons_of_mem _ hq)
    refine ⟨?_, ?_, ?_⟩
    · intro q hq
      rcases List.mem_append.mp hq with hq1 | hq2
      · obtain ⟨hq3, hq4⟩ := hP1 q (hsub_s q hq1)
        exact ⟨List.mem_append_left _ hq3,
          by rw [count_snoc_ne ds k0 q.1 (hkeys_s q hq1)]; exact hq4⟩
      · rcases List.mem_cons.mp hq2 with hq3 | hq3
        · subst hq3
          refine ⟨List.mem_append_left _ hkds, ?_⟩
          rw [count_snoc_self, ← hm]
        · obtain ⟨hq4, hq5⟩ := hP1 q (hsub_t q hq3)
          exact ⟨List.mem_append_left _ hq4,
            by rw [count_snoc_ne ds k0 q.1 (hkeys_t q hq3)]; exact hq5⟩
    · intro a ha
      by_cases hak : a = k0
      · subst hak
        rw [count_snoc_self, ← hm]
        exact List.mem_append_right _ (List.mem_cons_self _ _)
      · rcases List.mem_append.mp ha with ha1 | ha2
        · rw [count_snoc_ne ds k0 a hak]
          have hmem := hP2 a ha1
          rw [hst] at hmem
          rcases List.mem_append.mp hmem with hm1 | hm2
          · exact List.mem_append_left _ hm1
          · rcases List.mem_cons.mp hm2 with hm3 | hm3
            · exact absurd (congrArg Prod.fst hm3) hak
            · exact List.mem_append_right _ (List.mem_cons_of_mem _ hm3)
        · exact absurd (List.mem_singleton.mp ha2) hak
    · have hidx : ∀ a ∈ ds, (ds ++ [k0]).indexOf a = ds.indexOf a :=
        fun a ha => List.indexOf_append_of_mem ha
      rw [List.pairwise_append]
      refine ⟨?_, ?_, ?_⟩
      · refine hs.imp_of_mem ?_
        intro p q hpm hqm hpq
        rw [hidx _ (hP1 p (hsub_s p hpm)).1, hidx _ (hP1 q (hsub_s q hqm)).1]
        exact hpq
      · rw [List.pairwise_cons]
        constructor
        · intro q hq
          have := hkt1 q hq
          rw [hidx _ hkds, hidx _ (hP1 q (hsub_t q hq)).1]
          exact this
        · refine ht.imp_of_mem ?_
          intro p q hpm hqm hpq
          rw [hidx _ (hP1 p (hsub_t p hpm)).1, hidx _ (hP1 q (hsub_t q hqm)).1]
          exact hpq
      · intro p hpm q hqm
        rcases List.mem_cons.mp hqm with hq1 | hq1
        · subst hq1
          have := hcross p hpm (k0, m) (List.mem_cons_self _ _)
          rw [hidx _ (hP1 p (hsub_s p hpm)).1, hidx _ hkds]
          exact this
        · have := hcross p hpm q (List.mem_cons_of_mem _ hq1)
          rw [hidx _ (hP1 p (hsub_s p hpm)).1, hidx _ (hP1 q (hsub_t q hq1)).1]
          exact this
  · -- fresh key: a new entry is appended
    rw [bump_not_mem cs k hk]
    have hkds : k ∉ ds := by
      intro hin
      exact hk (List.mem_map.mpr ⟨(k, ds.count k), hP2 k hin, rfl⟩)
    have hkeys : ∀ q ∈ cs, q.1 ≠ k := by
      intro q hq he
      exact hkds (he ▸ (hP1 q hq).1)
    refine ⟨?_, ?_, ?_⟩
    · intro q hq
      rcases List.mem_append.mp hq with hq1 | hq2
      · obtain ⟨hq3, hq4⟩ := hP1 q hq1
        exact ⟨List.mem_append_left _ hq3,
          by rw [count_snoc_ne ds k q.1 (hkeys q hq1)]; exact hq4⟩
      · rw [List.mem_singleton.mp hq2]
        refine ⟨List.mem_append_right _ (List.mem_singleton_self k), ?_⟩
        rw [count_snoc_self, List.count_eq_zero_of_not_mem hkds]
    · intro a ha
      rcases List.mem_append.mp ha with ha1 | ha2
      · have hak : a ≠ k := fun he => hkds (he ▸ ha1)
        rw [count_snoc_ne ds k a hak]
        exact List.mem_append_left _ (hP2 a ha1)
      · rw [List.mem_singleton.mp ha2, count_snoc_self,
          List.count_eq_zero_of_not_mem hkds]
        exact List.mem_append_right _ (List.mem_singleton_self _)
    · rw [List.pairwise_append]
      refine ⟨?_, List.pairwise_singleton _ _, ?_⟩
      · refine hP3.imp_of_mem ?_
        intro p q hpm hqm hpq
        rw [List.indexOf_append_of_mem (hP1 p hpm).1,
          List.indexOf_append_of_mem (hP1 q hqm).1]
        exact hpq
      · intro p hpm q hqm
        rw [List.mem_singleton.mp hqm]
        exact indexOf_snoc_lt ds k p.1 (hP1 p hpm).1 hkds

lemma countsOK_buildCounts (ds : List String) : CountsOK ds (buildCounts ds) := by
  induction ds using List.reverseRecOn with
  | nil => exact countsOK_nil
  | append_singleton ds k ih =>
      have hb : buildCounts (ds ++ [k]) = bump (buildCounts ds) k := by
        simp [buildCounts, List.foldl_append]
      rw [hb]
      exact countsOK_snoc ds (buildCounts ds) k ih

lemma pickMax_spec (rest : List (String × ℕ)) :
    ∀ c : String × ℕ,
      pickMax c rest ∈ c :: rest ∧
      (∀ p ∈ c :: rest, p.2 ≤ (pickMax c rest).2) ∧
      ∃ l1 l2, c :: rest = l1 ++ (pickMax c rest) :: l2 ∧
        ∀ p ∈ l1, p.2 < (pickMax c rest).2 := by
  induction rest with
  | nil =>
      intro c
      refine ⟨List.mem_singleton_self c, ?_, [], [], rfl, by simp⟩
      intro p hp
      rw [List.mem_singleton.mp hp]
      exact le_refl _
  | cons p rest ih =>
      intro c
      by_cases hlt : c.2 < p.2
      · have h1 : pickMax c (p :: rest) = pickMax p rest := by
          simp [pickMax, hlt]
        obtain ⟨hmem, hmax, l1, l2, hdec, hpre⟩ := ih p
        rw [h1]
        have hple : p.2 ≤ (pickMax p rest).2 := hmax p (List.mem_cons_self p rest)
        refine ⟨List.mem_cons_of_mem c hmem, ?_, c :: l1, l2, ?_, ?_⟩
        · intro q hq
          rcases List.mem_cons.mp hq with hq1 | hq1
          · subst hq1
            exact le_of_lt (lt_of_lt_of_le hlt hple)
          · exact hmax q hq1
        · rw [List.cons_append, ← hdec]
        · intro q hq
          rcases List.mem_cons.mp hq with hq1 | hq1
          · subst hq1
            exact lt_of_lt_of_le hlt hple
          · exact hpre q hq1
      · have h1 : pickMax c (p :: rest) = pickMax c rest := by
          simp [pickMax, hlt]
        obtain ⟨hmem, hmax, l1, l2, hdec, hpre⟩ := ih c
        rw [h1]
        have hple : p.2 ≤ c.2 := le_of_not_lt hlt
        have hcle : c.2 ≤ (pickMax c rest).2 := hmax c (List.mem_cons_self c rest)
        refine ⟨?_, ?_, ?_⟩
        · rcases List.mem_cons.mp hmem with hm1 | hm1
          · rw [hm1]
            exact List.mem_cons_self c (p :: rest)
          · exact List.mem_cons_of_mem c (List.mem_cons_of_mem p hm1)
        · intro q hq
          rcases List.mem_cons.mp hq with hq1 | hq2
          · subst hq1
            exact hcle
          · rcases List.mem_cons.mp hq2 with hq3 | hq3
            · subst hq3
              exact le_trans hple hcle
            · exact hmax q (List.mem_cons_of_mem c hq3)
        · cases l1 with
          | nil =>
              have hc : pickMax c rest = c := by
                rw [List.nil_append] at hdec
                exact (List.head_eq_of_cons_eq hdec.symm)
              refine ⟨[], p :: rest, ?_, by simp⟩
              rw [List.nil_append, hc]
          | cons d l1' =>
              rw [List.cons_append] at hdec
              have h2 : c = d := List.head_eq_of_cons_eq hdec
              have h3 : rest = l1' ++ pickMax c rest :: l2 :=
                List.tail_eq_of_cons_eq hdec
              have hcres : c.2 < (pickMax c rest).2 := by
                have := hpre d (List.mem_cons_self d l1')
                rw [← h2] at this
                exact this
              refine ⟨c :: p :: l1', l2, ?_, ?_⟩
              · rw [List.cons_append, List.cons_append, ← h3]
              · intro q hq
                rcases List.mem_cons.mp hq with hq1 | hq2
                · subst hq1
                  exact hcres
                · rcases List.mem_cons.mp hq2 with hq3 | hq3
                  · subst hq3
                    exact lt_of_le_of_lt hple hcres
                  · exact hpre q (List.mem_cons_of_mem d hq3)

lemma mostCommon_mode (ds : List String) (hne : ds ≠ []) :
    mostCommonDensity (buildCounts ds) ∈ ds ∧
    (∀ d ∈ ds, ds.count d ≤ ds.count (mostCommonDensity (buildCounts ds))) ∧
    (∀ d ∈ ds, ds.count d = ds.count (mostCommonDensity (buildCounts ds)) →
      ds.indexOf (mostCommonDensity (buildCounts ds)) ≤ ds.indexOf d) := by
  obtain ⟨hP1, hP2, hP3⟩ := countsOK_buildCounts ds
  have hbne : buildCounts ds ≠ [] := by
    obtain ⟨d0, ds', hds⟩ := List.exists_cons_of_ne_nil hne
    intro hb
    have := hP2 d0 (hds ▸ List.mem_cons_self _ _)
    rw [hb] at this
    cases this
  obtain ⟨c, rest, hcr⟩ := List.exists_cons_of_ne_nil hbne
  have hmc : mostCommonDensity (buildCounts ds) = (pickMax c rest).1 := by
    rw [hcr]
    rfl
  obtain ⟨hmem, hmax, l1, l2, hdec, hpre⟩ := pickMax_spec rest c
  have hrin : pickMax c rest ∈ buildCounts ds := hcr ▸ hmem
  obtain ⟨hr1, hr2⟩ := hP1 _ hrin
  rw [hmc]
  refine ⟨hr1, ?_, ?_⟩
  · intro d hd
    have hdm : (d, ds.count d) ∈ c :: rest := hcr ▸ hP2 d hd
    have h := hmax (d, ds.count d) hdm
    rw [← hr2]
    exact h
  · intro d hd hcnt
    have hdm : (d, ds.count d) ∈ l1 ++ pickMax c rest :: l2 := by
      rw [← hdec]
      exact hcr ▸ hP2 d hd
    rcases List.mem_append.mp hdm with h1 | h2
    · exfalso
      have h := hpre _ h1
      rw [hr2, ← hcnt] at h
      exact lt_irrefl _ h
    · rcases List.mem_cons.mp h2 with h3 | h3
      · have : d = (pickMax c rest).1 := congrArg Prod.fst h3
        rw [this]
      · have hP3' : (l1 ++ pickMax c rest :: l2).Pairwise
            (fun p q => ds.indexOf p.1 < ds.indexOf q.1) := by
          rw [← hdec, ← hcr]
          exact hP3
        obtain ⟨_, hPr, _⟩ := List.pairwise_append.mp hP3'
        obtain ⟨hfirst, _⟩ := List.pairwise_cons.mp hPr
        exact le_of_lt (hfirst _ h3)

end AggregatorLemmas

section AggregatorWitnessData

/-- Deduplication is one admissible enumeration of `list(set(·))`. -/
lemma setSpec_dedup : SetSpec (fun xs => xs.dedup) :=
  fun _ _ => List.mem_dedup

/-- Reversed deduplication is another admissible enumeration, with a
different literal order. -/
lemma setSpec_dedup_reverse : SetSpec (fun xs => xs.dedup.reverse) :=
  fun xs a => by simp [List.mem_reverse, List.mem_dedup]

/-- Four validated records of one zone: three `high` densities, one `low`,
with overlapping risk lists. -/
def sampleRecords : List AnalysisRecord :=
  [⟨some "Zone A", false, some "high", some "calm",
      some ["congestion"], some [], some (mkRat 4 5)⟩,
   ⟨some "Zone A", false, some "high", some "calm",
      some ["congestion", "exit blocked"], some [], none⟩,
   ⟨some "Zone A", false, some "high", some "excited",
      some [], some ["open gate"], some (mkRat 9 10)⟩,
   ⟨some "Zone A", false, some "low", some "calm",
      some ["exit blocked"], some [], some (mkRat 1 2)⟩]

end AggregatorWitnessData

section AggregatorTheorems

/-- C4: the aggregator's predominant crowd density is a categorical mode of
the non-error densities, and ties are broken toward the value whose first
occurrence in the input order is earliest (dict insertion order feeds
Python's first-maximum `max`). -/
theorem C4_mode_first_seen (σ : List String → List String)
    (l : List AnalysisRecord) (hne : denlist l ≠ []) :
    ∃ s, getZoneSummary σ l = some s ∧
      s.overall_crowd_density ∈ denlist l ∧
      (∀ d ∈ denlist l,
        (denlist l).count d ≤ (denlist l).count s.overall_crowd_density) ∧
      (∀ d ∈ denlist l,
        (denlist l).count d = (denlist l).count s.overall_crowd_density →
        (denlist l).indexOf s.overall_crowd_density ≤ (denlist l).indexOf d) := by
  have hlne : l ≠ [] := by
    intro h
    rw [h] at hne
    exact hne rfl
  obtain ⟨a0, rest, rfl⟩ := List.exists_cons_of_ne_nil hlne
  obtain ⟨h1, h2, h3⟩ := mostCommon_mode (denlist (a0 :: rest)) hne
  refine ⟨_, rfl, ?_, ?_, ?_⟩ <;>
    simp only [getZoneSummary, aggregate_counts] <;>
    first
      | exact h1
      | exact h2
      | exact h3

/-- Witness for C4 on four concrete records (densities high, high, high,
low). -/
theorem C4_mode_first_seen_witness :
    ∃ s, getZoneSummary (fun xs => xs.dedup) sampleRecords = some s ∧
      s.overall_crowd_density ∈ denlist sampleRecords ∧
      (∀ d ∈ denlist sampleRecords,
        (denlist sampleRecords).count d
          ≤ (denlist sampleRecords).count s.overall_crowd_density) ∧
      (∀ d ∈ denlist sampleRecords,
        (denlist sampleRecords).count d
            = (denlist sampleRecords).count s.overall_crowd_density →
        (denlist sampleRecords).indexOf s.overall_crowd_density
          ≤ (denlist sampleRecords).indexOf d) :=
  C4_mode_first_seen (fun xs => xs.dedup) sampleRecords (by decide)

/-- C3: when the non-error records of a zone carry densities
`high, high, high, low` (in any order), the zone summary's predominant
density is `high`; and for every zone, the aggregated risk collection
contains exactly the strings occurring in some non-error record's
`potential_risks`, i.e. their deduplicated union as a set. -/
theorem C3_predominant_and_risk_union (σ : List String → List String)
    (l : List AnalysisRecord) (hσ : SetSpec σ) (hne : l ≠ []) :
    ((denlist l).Perm ["high", "high", "high", "low"] →
      ∃ s, getZoneSummary σ l = some s ∧ s.overall_crowd_density = "high") ∧
    (∀ s, getZoneSummary σ l = some s →
      ∀ a, a ∈ s.aggregated_risks ↔
        ∃ r ∈ l, r.err = false ∧ a ∈ r.potential_risks.getD []) := by
  constructor
  · intro hperm
    obtain ⟨a0, rest, rfl⟩ := List.exists_cons_of_ne_nil hne
    have hdne : denlist (a0 :: rest) ≠ [] := by
      intro h
      have hl := hperm.length_eq
      rw [h] at hl
      simp at hl
    obtain ⟨h1, h2, h3⟩ := mostCommon_mode (denlist (a0 :: rest)) hdne
    refine ⟨_, rfl, ?_⟩
    simp only [getZoneSummary, aggregate_counts]
    have hhigh : "high" ∈ denlist (a0 :: rest) :=
      hperm.mem_iff.mpr (by decide)
    have hch : (denlist (a0 :: rest)).count "high" = 3 := by
      rw [hperm.count_eq]
      decide
    have hcl : (denlist (a0 :: rest)).count "low" = 1 := by
      rw [hperm.count_eq]
      decide
    have hmax3 : 3 ≤ (denlist (a0 :: rest)).count
        (mostCommonDensity (buildCounts (denlist (a0 :: rest)))) := by
      have h := h2 "high" hhigh
      rw [hch] at h
      exact h
    have hmem := hperm.mem_iff.mp h1
    simp only [List.mem_cons, List.not_mem_nil, or_false] at hmem
    rcases hmem with h | h | h | h
    · exact h
    · exact h
    · exact h
    · exfalso
      rw [h, hcl] at hmax3
      omega
  · intro s hs a
    obtain ⟨a0, rest, rfl⟩ := List.exists_cons_of_ne_nil hne
    simp only [getZoneSummary] at hs
    obtain rfl := Option.some.inj hs
    simp only [aggregate_risks]
    refine (hσ _ a).trans ?_
    simp only [allRisks, List.mem_flatMap, List.mem_filter,
      Bool.not_eq_true']
    constructor
    · rintro ⟨r, ⟨hr1, hr2⟩, hr3⟩
      exact ⟨r, hr1, hr2, hr3⟩
    · rintro ⟨r, hr1, hr2, hr3⟩
      exact ⟨r, ⟨hr1, hr2⟩, hr3⟩

/-- Witness for C3 on four concrete records with overlapping risk lists. -/
theorem C3_predominant_and_risk_union_witness :
    (∃ s, getZoneSummary (fun xs => xs.dedup) sampleRecords = some s ∧
      s.overall_crowd_density = "high") ∧
    (∀ s, getZoneSummary (fun xs => xs.dedup) sampleRecords = some s →
      ∀ a, a ∈ s.aggregated_risks ↔
        ∃ r ∈ sampleRecords, r.err = false ∧ a ∈ r.potential_risks.getD []) := by
  have h := C3_predominant_and_risk_union (fun xs => xs.dedup) sampleRecords
    setSpec_dedup (by simp [sampleRecords])
  exact ⟨h.1 (by decide), h.2⟩

/-- C6: the aggregator is deterministic in everything except the
interpreter-chosen enumeration order of its `list(set(...))` fields — for
any two admissible set enumerations, the two outputs agree on every scalar
field, and the behaviors, risks and recommendations fields are set-equal. -/
theorem C6_aggregator_determinism (σ1 σ2 : List String → List String)
    (l : List AnalysisRecord) (hσ1 : SetSpec σ1) (hσ2 : SetSpec σ2) :
    (getZoneSummary σ1 l = none ↔ getZoneSummary σ2 l = none) ∧
    (∀ s1 s2, getZoneSummary σ1 l = some s1 → getZoneSummary σ2 l = some s2 →
      s1.zone = s2.zone ∧
      s1.total_frames_analyzed = s2.total_frames_analyzed ∧
      s1.successful_analyses = s2.successful_analyses ∧
      s1.overall_crowd_density = s2.overall_crowd_density ∧
      s1.density_distribution = s2.density_distribution ∧
      s1.average_confidence = s2.average_confidence ∧
      (∀ a, a ∈ s1.common_behaviors ↔ a ∈ s2.common_behaviors) ∧
      (∀ a, a ∈ s1.aggregated_risks ↔ a ∈ s2.aggregated_risks) ∧
      (∀ a, a ∈ s1.priority_actions ↔ a ∈ s2.priority_actions)) := by
  cases l with
  | nil =>
      refine ⟨Iff.rfl, ?_⟩
      intro s1 s2 h1 _
      simp [getZoneSummary] at h1
  | cons a0 rest =>
      constructor
      · simp [getZoneSummary]
      · intro s1 s2 h1 h2
        simp only [getZoneSummary] at h1 h2
        obtain rfl := Option.some.inj h1
        obtain rfl := Option.some.inj h2
        refine ⟨rfl, rfl, rfl, rfl, rfl, rfl, ?_, ?_, ?_⟩ <;> intro a
        · exact (hσ1 _ a).trans (hσ2 _ a).symm
        · exact (hσ1 _ a).trans (hσ2 _ a).symm
        · exact (hσ1 _ a).trans (hσ2 _ a).symm

/-- Witness for C6: deduplication and reversed deduplication are two
admissible enumerations with different literal orders. -/
theorem C6_aggregator_determinism_witness :
    (getZoneSummary (fun xs => xs.dedup) sampleRecords = none ↔
      getZoneSummary (fun xs => xs.dedup.reverse) sampleRecords = none) ∧
    (∀ s1 s2, getZoneSummary (fun xs => xs.dedup) sampleRecords = some s1 →
      getZoneSummary (fun xs => xs.dedup.reverse) sampleRecords = some s2 →
      s1.zone = s2.zone ∧
      s1.total_frames_analyzed = s2.total_frames_analyzed ∧
      s1.successful_analyses = s2.successful_analyses ∧
      s1.overall_crowd_density = s2.overall_crowd_density ∧
      s1.density_distribution = s2.density_distribution ∧
      s1.average_confidence = s2.average_confidence ∧
      (∀ a, a ∈ s1.common_behaviors ↔ a ∈ s2.common_behaviors) ∧
      (∀ a, a ∈ s1.aggregated_risks ↔ a ∈ s2.aggregated_risks) ∧
      (∀ a, a ∈ s1.priority_actions ↔ a ∈ s2.priority_actions)) :=
  C6_aggregator_determinism (fun xs => xs.dedup) (fun xs => xs.dedup.reverse)
    sampleRecords setSpec_dedup setSpec_dedup_reverse

end AggregatorTheorems

section SummarizerAgent

/-- Source `d.get(k, default)` on a JSON value.  The repository only applies `.get`
to dict-typed values; on a non-dict the model collapses to the default
(Python would raise `AttributeError`, which the callers' `except` blocks
turn into the same error-flagged responses the claims are about). -/
def jsonGetD (j : Json) (k : String) (d : Json) : Json :=
  match j with
  | Json.obj kvs => (kvs.lookup k).getD d
  | _ => d

/-- The `required_keys` default table of
`SummarizerAgent._validate_fusion_summary`, in source order. -/
def requiredKeysF : List (String × Json) :=
  [("executive_summary", Json.obj []),
   ("zone_analysis", Json.arr []),
   ("cross_validation", Json.obj []),
   ("operational_priorities", Json.arr []),
   ("confidence_metrics", Json.obj [])]

/-- The `exec_summary_defaults` table. -/
def execSummaryDefaults : List (String × Json) :=
  [("overall_situation", Json.str "Assessment in progress"),
   ("threat_level", Json.str "yellow"),
   ("immediate_concerns", Json.arr []),
   ("recommendation_urgency", Json.str "medium")]

/-- The `confidence_defaults` table. -/
def confidenceDefaults : List (String × Json) :=
  [("overall_confidence", Json.num (mkRat 1 2)),
   ("vision_data_quality", Json.str "unknown"),
   ("report_data_quality", Json.str "unknown"),
   ("synthesis_reliability", Json.str "unknown")]

/-- Source `SummarizerAgent._validate_fusion_summary`.  After the top-level
backfill the nested `executive_summary` and `confidence_metrics` values are
backfilled in place and the nested `overall_confidence` is clamped exactly
like the per-frame score.  When a parsed nested value is not a dict the
`key not in value` / item-assignment lines raise `TypeError`
(`Except.error`), which the caller's `except Exception` turns into the
error response.  (The contrived case of a string value containing every
default key name as a substring is modelled as the same error.) -/
def validateFusionSummary (kvs : List (String × Json)) :
    Except String (List (String × Json)) :=
  let s1 := backfillFields requiredKeysF kvs
  match s1.lookup "executive_summary" with
  | some (Json.obj ex) =>
      let s2 := objSet s1 "executive_summary"
        (Json.obj (backfillFields execSummaryDefaults ex))
      match s2.lookup "confidence_metrics" with
      | some (Json.obj cm) =>
          let cm1 := backfillFields confidenceDefaults cm
          let cm2 :=
            match cm1.lookup "overall_confidence" with
            | none => cm1
            | some v =>
                match pyFloat v with
                | some q =>
                    objSet cm1 "overall_confidence" (Json.num (max 0 (min 1 q)))
                | none =>
                    objSet cm1 "overall_confidence" (Json.num (mkRat 1 2))
          Except.ok (objSet s2 "confidence_metrics" (Json.obj cm2))
      | _ => Except.error "TypeError"
  | _ => Except.error "TypeError"

/-- Source `SummarizerAgent._create_fallback_fusion_summary`. -/
def createFallbackFusionSummary (responseText : String) :
    List (String × Json) :=
  [("executive_summary", Json.obj
     [("overall_situation",
        Json.str "Analysis parsing incomplete - manual review required"),
      ("threat_level", Json.str "yellow"),
      ("immediate_concerns", Json.arr [Json.str "Fusion analysis system error"]),
      ("recommendation_urgency", Json.str "medium")]),
   ("zone_analysis", Json.arr []),
   ("cross_validation", Json.obj
     [("vision_report_alignment", Json.str "unable to assess"),
      ("discrepancies", Json.arr [Json.str "System parsing error"]),
      ("confidence_assessment", Json.str "low"),
      ("data_gaps", Json.arr [Json.str "Complete analysis unavailable"])]),
   ("operational_priorities", Json.arr
     [Json.obj
       [("priority", Json.str "Restore fusion analysis system"),
        ("urgency", Json.str "immediate"),
        ("zone_focus", Json.str "system"),
        ("resource_requirements", Json.str "Technical support"),
        ("success_metrics", Json.str "System operational")]]),
   ("confidence_metrics", Json.obj
     [("overall_confidence", Json.num (mkRat 3 10)),
      ("vision_data_quality", Json.str "available"),
      ("report_data_quality", Json.str "available"),
      ("synthesis_reliability", Json.str "compromised")]),
   ("raw_analysis",
     Json.str (if responseText.length > 1500
       then responseText.take 1500 ++ "..." else responseText)),
   ("parsing_error", Json.bool true)]

/-- Source `SummarizerAgent._create_error_response`. -/
def createErrorResponseS (now errorMessage : String) :
    List (String × Json) :=
  [("executive_summary", Json.obj
     [("overall_situation",
        Json.str "System error - manual assessment required"),
      ("threat_level", Json.str "red"),
      ("immediate_concerns",
        Json.arr [Json.str "Fusion analysis system failure"]),
      ("recommendation_urgency", Json.str "critical")]),
   ("zone_analysis", Json.arr []),
   ("cross_validation", Json.obj
     [("vision_report_alignment", Json.str "system error"),
      ("discrepancies", Json.arr [Json.str "Analysis system offline"]),
      ("confidence_assessment", Json.str "none"),
      ("data_gaps", Json.arr [Json.str "Complete system failure"])]),
   ("operational_priorities", Json.arr
     [Json.obj
       [("priority", Json.str "Restore situational awareness system"),
        ("urgency", Json.str "immediate"),
        ("zone_focus", Json.str "all"),
        ("resource_requirements",
          Json.str "Technical team and manual assessment"),
        ("success_metrics", Json.str "System restored and operational")]]),
   ("confidence_metrics", Json.obj
     [("overall_confidence", Json.num 0),
      ("vision_data_quality", Json.str "error"),
      ("report_data_quality", Json.str "error"),
      ("synthesis_reliability", Json.str "failed")]),
   ("error", Json.bool true),
   ("error_message", Json.str errorMessage),
   ("fusion_metadata", Json.obj
     [("analysis_timestamp", Json.str now),
      ("agent_type", Json.str "summarizer_agent"),
      ("fusion_version", Json.str "1.0"),
      ("error_occurred", Json.bool true)])]

/-- The `fusion_metadata` object added by `_parse_fusion_response`. -/
def fusionMeta (now : String) (dataSources : Json) : Json :=
  Json.obj
    [("analysis_timestamp", Json.str now),
     ("agent_type", Json.str "summarizer_agent"),
     ("data_sources", dataSources),
     ("fusion_version", Json.str "1.0")]

/-- Source `SummarizerAgent._parse_fusion_response`.  When no brace-delimited
payload exists, the fallback summary flows through metadata insertion and
validation; when `json.loads` raises `JSONDecodeError` (`loads _ = none`)
the fallback is returned directly; a parsed non-dict payload makes the
metadata item assignment raise `TypeError`, landing in the generic
`except Exception` branch (interpolated exception texts abstracted). -/
def parseFusionResponse (loads : String → Option Json) (now : String)
    (responseText : String) (dataSources : Json) : List (String × Json) :=
  match extractJsonSubstr responseText with
  | none =>
      let s0 := createFallbackFusionSummary responseText
      let s1 := objSet s0 "fusion_metadata" (fusionMeta now dataSources)
      match validateFusionSummary s1 with
      | Except.ok s2 => s2
      | Except.error e =>
          createErrorResponseS now ("Fusion response processing failed: " ++ e)
  | some sub =>
      match loads sub with
      | none => createFallbackFusionSummary responseText
      | some (Json.obj kvs) =>
          let s1 := objSet kvs "fusion_metadata" (fusionMeta now dataSources)
          match validateFusionSummary s1 with
          | Except.ok s2 => s2
          | Except.error e =>
              createErrorResponseS now
                ("Fusion response processing failed: " ++ e)
      | some _ =>
          createErrorResponseS now "Fusion response processing failed: TypeError"

/-- Source `SummarizerAgent._prepare_fusion_data`, restricted to the parts consumed
by the modelled code: `vision_insights`/`report_insights` only feed the
prompt text handed to the abstracted external model call, while
`analysis_timestamp` and `data_sources` flow into the fusion metadata. -/
def prepareFusionData (now : String) (visionAnalyses : List AnalysisRecord)
    (reportAnalysis : Json) : Json :=
  Json.obj
    [("analysis_timestamp", Json.str now),
     ("data_sources", Json.obj
       [("vision_frames_count", Json.num (visionAnalyses.length : ℚ)),
        ("field_reports_available",
          Json.bool (! jsonTruthy (jsonGetD reportAnalysis "error"
            (Json.bool false))))])]

/-- Source `SummarizerAgent.create_comprehensive_summary`: the text model is `none`
when initialization failed, `some (.error e)` when the single generate call
raised, and `some (.ok text)` when it returned response text (which then
flows through `_generate_fusion_summary` into `_parse_fusion_response`). -/
def createComprehensiveSummary (loads : String → Option Json) (now : String)
    (textModel : Option (Except String String))
    (visionAnalyses : List AnalysisRecord) (reportAnalysis : Json) :
    List (String × Json) :=
  match textModel with
  | none => createErrorResponseS now "Summarizer model not initialized"
  | some mdl =>
      let fusionData := prepareFusionData now visionAnalyses reportAnalysis
      match mdl with
      | Except.error e =>
          createErrorResponseS now ("Fusion analysis failed: " ++ e)
      | Except.ok text =>
          parseFusionResponse loads now text
            (jsonGetD fusionData "data_sources" (Json.obj []))

end SummarizerAgent

section SummarizerTheorems

/-- C2: whenever the fusion model call fails outright — the model is
uninitialized or the generate call raises — `create_comprehensive_summary`
returns the error response: threat level `"red"`, error flag `true`, and all
five schema sections present. -/
theorem C2_fusion_total_failure (loads : String → Option Json) (now : String)
    (textModel : Option (Except String String))
    (visionAnalyses : List AnalysisRecord) (reportAnalysis : Json)
    (hfail : textModel = none ∨ ∃ e, textModel = some (Except.error e)) :
    (∃ ex, (createComprehensiveSummary loads now textModel visionAnalyses
        reportAnalysis).lookup "executive_summary" = some (Json.obj ex) ∧
      ex.lookup "threat_level" = some (Json.str "red")) ∧
    (createComprehensiveSummary loads now textModel visionAnalyses
        reportAnalysis).lookup "error" = some (Json.bool true) ∧
    ((createComprehensiveSummary loads now textModel visionAnalyses
        reportAnalysis).lookup "executive_summary").isSome = true ∧
    ((createComprehensiveSummary loads now textModel visionAnalyses
        reportAnalysis).lookup "zone_analysis").isSome = true ∧
    ((createComprehensiveSummary loads now textModel visionAnalyses
        reportAnalysis).lookup "cross_validation").isSome = true ∧
    ((createComprehensiveSummary loads now textModel visionAnalyses
        reportAnalysis).lookup "operational_priorities").isSome = true ∧
    ((createComprehensiveSummary loads now textModel visionAnalyses
        reportAnalysis).lookup "confidence_metrics").isSome = true := by
  rcases hfail with h | ⟨e, h⟩ <;> subst h <;>
    exact ⟨⟨_, rfl, rfl⟩, rfl, rfl, rfl, rfl, rfl, rfl⟩

/-- Witness for C2 with an uninitialized model. -/
theorem C2_fusion_total_failure_witness :
    (∃ ex, (createComprehensiveSummary (fun _ => none) "2024-01-01" none []
        (Json.obj [])).lookup "executive_summary" = some (Json.obj ex) ∧
      ex.lookup "threat_level" = some (Json.str "red")) ∧
    (createComprehensiveSummary (fun _ => none) "2024-01-01" none []
        (Json.obj [])).lookup "error" = some (Json.bool true) ∧
    ((createComprehensiveSummary (fun _ => none) "2024-01-01" none []
        (Json.obj [])).lookup "executive_summary").isSome = true ∧
    ((createComprehensiveSummary (fun _ => none) "2024-01-01" none []
        (Json.obj [])).lookup "zone_analysis").isSome = true ∧
    ((createComprehensiveSummary (fun _ => none) "2024-01-01" none []
        (Json.obj [])).lookup "cross_validation").isSome = true ∧
    ((createComprehensiveSummary (fun _ => none) "2024-01-01" none []
        (Json.obj [])).lookup "operational_priorities").isSome = true ∧
    ((createComprehensiveSummary (fun _ => none) "2024-01-01" none []
        (Json.obj [])).lookup "confidence_metrics").isSome = true :=
  C2_fusion_total_failure (fun _ => none) "2024-01-01" none [] (Json.obj [])
    (Or.inl rfl)

/-- C10: a fusion model response whose payload cannot be extracted (no
brace-delimited span) or cannot be parsed (`json.loads` fails on the span)
yields the parsing-failure fallback: `parsing_error = true`, threat level
`"yellow"` (less severe than the `"red"` of an outright call failure), an
empty `zone_analysis` list, and `overall_confidence = 0.3`. -/
theorem C10_fusion_parse_fallback (loads : String → Option Json)
    (now responseText : String) (dataSources : Json)
    (hfail : extractJsonSubstr responseText = none ∨
      ∃ sub, extractJsonSubstr responseText = some sub ∧ loads sub = none) :
    (parseFusionResponse loads now responseText dataSources).lookup
      "parsing_error" = some (Json.bool true) ∧
    (∃ ex, (parseFusionResponse loads now responseText dataSources).lookup
        "executive_summary" = some (Json.obj ex) ∧
      ex.lookup "threat_level" = some (Json.str "yellow")) ∧
    (parseFusionResponse loads now responseText dataSources).lookup
      "zone_analysis" = some (Json.arr []) ∧
    (∃ cm, (parseFusionResponse loads now responseText dataSources).lookup
        "confidence_metrics" = some (Json.obj cm) ∧
      cm.lookup "overall_confidence" = some (Json.num (mkRat 3 10))) := by
  rcases hfail with h | ⟨sub, h1, h2⟩
  · simp only [parseFusionResponse, h]
    exact ⟨rfl, ⟨_, rfl, rfl⟩, rfl, ⟨_, rfl, rfl⟩⟩
  · simp only [parseFusionResponse, h1, h2]
    exact ⟨rfl, ⟨_, rfl, rfl⟩, rfl, ⟨_, rfl, rfl⟩⟩

/-- Witness for C10 on a response with no brace-delimited payload. -/
theorem C10_fusion_parse_fallback_witness :
    (parseFusionResponse (fun _ => none) "2024-01-01" "no json here"
        (Json.obj [])).lookup "parsing_error" = some (Json.bool true) ∧
    (∃ ex, (parseFusionResponse (fun _ => none) "2024-01-01" "no json here"
        (Json.obj [])).lookup "executive_summary" = some (Json.obj ex) ∧
      ex.lookup "threat_level" = some (Json.str "yellow")) ∧
    (parseFusionResponse (fun _ => none) "2024-01-01" "no json here"
        (Json.obj [])).lookup "zone_analysis" = some (Json.arr []) ∧
    (∃ cm, (parseFusionResponse (fun _ => none) "2024-01-01" "no json here"
        (Json.obj [])).lookup "confidence_metrics" = some (Json.obj cm) ∧
      cm.lookup "overall_confidence" = some (Json.num (mkRat 3 10))) :=
  C10_fusion_parse_fallback (fun _ => none) "2024-01-01" "no json here"
    (Json.obj []) (Or.inl rfl)

end SummarizerTheorems

section ZoneAssignment

/-- The hard-coded `zone_names` list of `Config.get_zones_for_videos`. -/
def zoneNamesList : List String :=
  ["Zone A", "Zone B", "Zone C", "Zone D", "Zone E", "Zone F"]

/-- Source `Config.get_zones_for_videos`: `zone_names[:max(1, video_count)]`. -/
def get_zones_for_videos (videoCount : ℕ) : List String :=
  zoneNamesList.take (max 1 videoCount)

/-- The per-video zone pick in `CoordinatorAgent._process_all_videos`:
`zone_names[i] if i < len(zone_names) else zone_names[0]` (the list is never
empty, so the fallback index is in range and the `getD` defaults are
unreachable). -/
def assignZone (zoneNames : List String) (i : ℕ) : String :=
  if i < zoneNames.length then zoneNames.getD i "" else zoneNames.getD 0 ""

/-- C9 fails as stated: for `n = 7` discovered videos the zone list is
truncated to the six hard-coded names — it is never extended — so the first
and the seventh file receive the same zone name `"Zone A"`. -/
theorem C9_counterexample :
    (get_zones_for_videos 7).length ≠ 7 ∧
    assignZone (get_zones_for_videos 7) 6
      = assignZone (get_zones_for_videos 7) 0 := by
  constructor
  · decide
  · rfl

/-- C9 amended: for `1 ≤ n ≤ 6` the assigned-name list has length `n` and
the `n` files receive `n` pairwise distinct zone names; for `n > 6` the
list is capped at the six hard-coded names and every file beyond the sixth
falls back to `"Zone A"`. -/
theorem C9_zone_assignment (n : ℕ) (h1 : 1 ≤ n) :
    (n ≤ 6 → (get_zones_for_videos n).length = n ∧
      (∀ i, i < n → ∀ j, j < n →
        assignZone (get_zones_for_videos n) i
          = assignZone (get_zones_for_videos n) j → i = j)) ∧
    (6 < n → (get_zones_for_videos n).length = 6 ∧
      ∀ i, 6 ≤ i → assignZone (get_zones_for_videos n) i = "Zone A") := by
  constructor
  · intro hn6
    interval_cases n <;> exact ⟨by decide, by decide⟩
  · intro hn6
    have hz : get_zones_for_videos n = zoneNamesList := by
      unfold get_zones_for_videos
      apply List.take_of_length_le
      simp only [zoneNamesList, List.length_cons, List.length_nil]
      omega
    rw [hz]
    refine ⟨rfl, ?_⟩
    intro i hi
    have hlen : ¬ i < zoneNamesList.length := by
      simp only [zoneNamesList, List.length_cons, List.length_nil]
      omega
    simp only [assignZone, hlen, if_false]
    rfl

/-- Witness for C9 amended: distinct names at `n = 3`, capped reuse at
`n = 8`. -/
theorem C9_zone_assignment_witness :
    ((get_zones_for_videos 3).length = 3 ∧
      (∀ i, i < 3 → ∀ j, j < 3 →
        assignZone (get_zones_for_videos 3) i
          = assignZone (get_zones_for_videos 3) j → i = j)) ∧
    ((get_zones_for_videos 8).length = 6 ∧
      ∀ i, 6 ≤ i → assignZone (get_zones_for_videos 8) i = "Zone A") :=
  ⟨(C9_zone_assignment 3 (by decide)).1 (by decide),
   (C9_zone_assignment 8 (by decide)).2 (by decide)⟩

end ZoneAssignment

section VideoProcessor

/-- A frame, presented by its single-channel intensity image (rows of pixel
values).  The colour-to-grayscale conversion `cv2.cvtColor` is an external
deterministic map; selection only ever inspects intensities, so frames are
identified with their intensity images. -/
abbrev Frame : Type := List (List ℕ)

/-- Shape agreement, as `cv2.absdiff` requires (a mismatch raises and the
`except` block of `_calculate_motion_score` answers `0.0`). -/
def sameShape (a b : Frame) : Bool :=
  a.length == b.length &&
    (List.zip a b).all (fun rc => rc.1.length == rc.2.length)

/-- Source `diff = cv2.absdiff(prev, cur)`; `_, thresh = cv2.threshold(diff, 30,
255, cv2.THRESH_BINARY)`; `motion_pixels = np.sum(thresh > 0)` — the number
of pixels whose absolute difference exceeds 30, via the 255-valued binary
image. -/
def diffCount (a b : Frame) : ℕ :=
  ((List.zip a b).map (fun rc =>
    ((List.zip rc.1 rc.2).map (fun pq =>
      if 30 < max pq.1 pq.2 - min pq.1 pq.2 then (255 : ℕ) else 0)).countP
        (fun t => decide (0 < t)))).sum

/-- Source `VideoProcessor._calculate_motion_score`: `motion_pixels /
total_pixels` with `total_pixels = thresh.shape[0] * thresh.shape[1]`; a
shape mismatch or a zero-pixel image raises and is caught, yielding `0.0`. -/
def motionScore (prev cur : Frame) : ℚ :=
  if sameShape prev cur then
    let totalPixels := cur.length * (cur.headD []).length
    if totalPixels = 0 then 0
    else (diffCount prev cur : ℚ) / (totalPixels : ℚ)
  else 0

/-- The frame-reading loop of
`VideoProcessor.extract_frames_with_motion_detection`: stop when the cap is
reached or the video ends; skip frames whose 1-based count is not a multiple
of the interval; select the first examined frame unconditionally and later
examined frames only when the motion score exceeds the threshold; the
`prev_frame` baseline is replaced by every examined frame. -/
def extractLoop (τ : ℚ) (maxFrames interval : ℕ) :
    List Frame → Option Frame → ℕ → ℕ → List Frame
  | [], _, _, _ => []
  | frame :: rest, prevFrame, frameCount, selectedCount =>
      if maxFrames ≤ selectedCount then []
      else
        if (frameCount + 1) % interval ≠ 0 then
          extractLoop τ maxFrames interval rest prevFrame (frameCount + 1)
            selectedCount
        else
          match prevFrame with
          | some prev =>
              if motionScore prev frame > τ then
                frame :: extractLoop τ maxFrames interval rest (some frame)
                  (frameCount + 1) (selectedCount + 1)
              else
                extractLoop τ maxFrames interval rest (some frame)
                  (frameCount + 1) selectedCount
          | none =>
              frame :: extractLoop τ maxFrames interval rest (some frame)
                (frameCount + 1) (selectedCount + 1)

/-- Source `VideoProcessor.extract_frames_with_motion_detection` on an opened
video, with the configured threshold, cap and interval as parameters. -/
def extract_frames_with_motion_detection (τ : ℚ) (maxFrames interval : ℕ)
    (video : List Frame) : List Frame :=
  extractLoop τ maxFrames interval video none 0 0

/-- The frame selector as configured by `Config`:
`VIDEO_FRAME_SKIP_THRESHOLD = 0.3`, `MAX_FRAMES_PER_VIDEO = 10`,
`FRAME_EXTRACTION_INTERVAL = 30`. -/
def extractFramesConfig (video : List Frame) : List Frame :=
  extract_frames_with_motion_detection (mkRat 3 10) 10 30 video

/-- The examined (sampled) frames: those whose 1-based index is a multiple
of the interval, with `frameCount` frames already read. -/
def sampledAux (interval : ℕ) (frameCount : ℕ) : List Frame → List Frame
  | [] => []
  | f :: rest =>
      if (frameCount + 1) % interval = 0 then
        f :: sampledAux interval (frameCount + 1) rest
      else sampledAux interval (frameCount + 1) rest

/-- The examined frames of a whole video. -/
def sampled (interval : ℕ) (video : List Frame) : List Frame :=
  sampledAux interval 0 video

/-- Reference selection over the examined frames, scored with the source's
`motionScore` against the immediately preceding examined frame. -/
def refSelectAuxM (τ : ℚ) : Frame → List Frame → List Frame
  | _, [] => []
  | prev, cur :: rest =>
      if motionScore prev cur > τ then cur :: refSelectAuxM τ cur rest
      else refSelectAuxM τ cur rest

/-- Reference selection for a whole video: the first examined frame
unconditionally, then every examined frame beating the threshold against
its immediate predecessor. -/
def refSelectM (τ : ℚ) (interval : ℕ) (video : List Frame) : List Frame :=
  match sampled interval video with
  | [] => []
  | f :: srest => f :: refSelectAuxM τ f srest

/-- Stated from the spec sentence: the number of pixels whose absolute
intensity difference from the previous examined frame exceeds 30 (no
intermediate 255-valued binary image). -/
def specPixelCount (prev cur : Frame) : ℕ :=
  ((List.zip prev cur).map (fun rc =>
    (List.zip rc.1 rc.2).countP (fun pq =>
      decide (30 < max pq.1 pq.2 - min pq.1 pq.2)))).sum

/-- Stated from the spec sentence: `motionScore = (count of pixels where
|current − previous| > 30) / (width × height)`. -/
def specMotionScore (h w : ℕ) (prev cur : Frame) : ℚ :=
  (specPixelCount prev cur : ℚ) / ((w : ℚ) * (h : ℚ))

/-- Reference selection over the examined frames, scored with the spec's
formula. -/
def refSelectAux (τ : ℚ) (h w : ℕ) : Frame → List Frame → List Frame
  | _, [] => []
  | prev, cur :: rest =>
      if specMotionScore h w prev cur > τ then
        cur :: refSelectAux τ h w cur rest
      else refSelectAux τ h w cur rest

/-- Spec-side reference selection for a whole video. -/
def refSelect (τ : ℚ) (h w interval : ℕ) (video : List Frame) : List Frame :=
  match sampled interval video with
  | [] => []
  | f :: srest => f :: refSelectAux τ h w f srest

/-- An `h × w` intensity image. -/
def isShape (h w : ℕ) (f : Frame) : Prop :=
  f.length = h ∧ ∀ row ∈ f, row.length = w

end VideoProcessor

section VideoLemmas

lemma mod_succ_of_ne (k cnt : ℕ) (hk : 0 < k) (h : (cnt + 1) % k ≠ 0) :
    (cnt + 1) % k = cnt % k + 1 := by
  have hd := Nat.div_add_mod cnt k
  have hr : cnt % k < k := Nat.mod_lt _ hk
  rcases Nat.lt_or_ge (cnt % k + 1) k with hlt | hge
  · have he : cnt + 1 = k * (cnt / k) + (cnt % k + 1) := by omega
    rw [he, Nat.mul_add_mod, Nat.mod_eq_of_lt hlt]
  · exfalso
    have hs : cnt % k + 1 = k := by omega
    apply h
    have he : cnt + 1 = k * (cnt / k + 1) := by
      rw [Nat.mul_add, Nat.mul_one]
      omega
    rw [he]
    exact Nat.mul_mod_right _ _

lemma mod_succ_eq_zero (k cnt : ℕ) (hk : 0 < k) (h : (cnt + 1) % k = 0) :
    cnt % k = k - 1 := by
  by_contra hne
  have hr : cnt % k < k := Nat.mod_lt _ hk
  have hlt : cnt % k + 1 < k := by omega
  have hd := Nat.div_add_mod cnt k
  have he : cnt + 1 = k * (cnt / k) + (cnt % k + 1) := by omega
  rw [he, Nat.mul_add_mod, Nat.mod_eq_of_lt hlt] at h
  omega

lemma extractLoop_some (τ : ℚ) (maxFrames interval : ℕ) :
    ∀ (rest : List Frame) (prev : Frame) (cnt sel : ℕ),
      extractLoop τ maxFrames interval rest (some prev) cnt sel
        = (refSelectAuxM τ prev (sampledAux interval cnt rest)).take
            (maxFrames - sel) := by
  intro rest
  induction rest with
  | nil => intro prev cnt sel; simp [extractLoop, sampledAux, refSelectAuxM]
  | cons f rest ih =>
      intro prev cnt sel
      by_cases hN : maxFrames ≤ sel
      · have h0 : maxFrames - sel = 0 := by omega
        simp [extractLoop, hN, h0]
      · by_cases hks : (cnt + 1) % interval = 0
        · have hcond : ¬((cnt + 1) % interval ≠ 0) := by simpa using hks
          have hsamp : sampledAux interval cnt (f :: rest)
              = f :: sampledAux interval (cnt + 1) rest := by
            simp only [sampledAux, if_pos hks]
          rw [hsamp]
          simp only [extractLoop, if_neg hN, if_neg hcond]
          by_cases hm : motionScore prev f > τ
          · simp only [refSelectAuxM, if_pos hm]
            have h2 : maxFrames - sel = (maxFrames - (sel + 1)) + 1 := by
              omega
            rw [h2, List.take_succ_cons, ih f (cnt + 1) (sel + 1)]
          · simp only [refSelectAuxM, if_neg hm]
            exact ih f (cnt + 1) sel
        · have hsamp : sampledAux interval cnt (f :: rest)
              = sampledAux interval (cnt + 1) rest := by
            simp only [sampledAux, if_neg hks]
          rw [hsamp]
          simp only [extractLoop, if_neg hN, if_pos hks]
          exact ih prev (cnt + 1) sel

lemma extractLoop_none (τ : ℚ) (maxFrames interval : ℕ) :
    ∀ (rest : List Frame) (cnt sel : ℕ),
      extractLoop τ maxFrames interval rest none cnt sel
        = (match sampledAux interval cnt rest with
           | [] => []
           | f :: srest => f :: refSelectAuxM τ f srest).take
            (maxFrames - sel) := by
  intro rest
  induction rest with
  | nil => intro cnt sel; simp [extractLoop, sampledAux]
  | cons f rest ih =>
      intro cnt sel
      by_cases hN : maxFrames ≤ sel
      · have h0 : maxFrames - sel = 0 := by omega
        simp [extractLoop, hN, h0]
      · by_cases hks : (cnt + 1) % interval = 0
        · have hcond : ¬((cnt + 1) % interval ≠ 0) := by simpa using hks
          have hsamp : sampledAux interval cnt (f :: rest)
              = f :: sampledAux interval (cnt + 1) rest := by
            simp only [sampledAux, if_pos hks]
          rw [hsamp]
          simp only [extractLoop, if_neg hN, if_neg hcond]
          have h2 : maxFrames - sel = (maxFrames - (sel + 1)) + 1 := by
            omega
          rw [h2, List.take_succ_cons, extractLoop_some τ maxFrames interval
            rest f (cnt + 1) (sel + 1)]
        · have hsamp : sampledAux interval cnt (f :: rest)
              = sampledAux interval (cnt + 1) rest := by
            simp only [sampledAux, if_neg hks]
          rw [hsamp]
          simp only [extractLoop, if_neg hN, if_pos hks]
          exact ih (cnt + 1) sel

/-- Refinement of the stateful loop against the reference selection (with
the source's own motion score): the selector's output is exactly the first
`maxFrames` of the reference selection over the examined frames. -/
lemma extract_eq_refSelectM (τ : ℚ) (maxFrames interval : ℕ)
    (video : List Frame) :
    extract_frames_with_motion_detection τ maxFrames interval video
      = (refSelectM τ interval video).take maxFrames := by
  have h := extractLoop_none τ maxFrames interval video 0 0
  rw [Nat.sub_zero] at h
  rw [extract_frames_with_motion_detection, h, refSelectM, sampled]

lemma zip_self {α : Type} (l : List α) :
    List.zip l l = l.map (fun x => (x, x)) := by
  induction l with
  | nil => rfl
  | cons x xs ih => simp [List.zip_cons_cons, ih]

lemma sameShape_self (f : Frame) : sameShape f f = true := by
  simp [sameShape, zip_self, List.all_eq_true]

lemma diffCount_self (f : Frame) : diffCount f f = 0 := by
  simp only [diffCount, zip_self, List.map_map]
  apply List.sum_eq_zero
  intro x hx
  obtain ⟨r, _, hr⟩ := List.mem_map.mp hx
  rw [← hr]
  simp only [Function.comp_apply, zip_self, List.map_map]
  rw [List.countP_eq_zero]
  intro a ha
  obtain ⟨y, _, hy⟩ := List.mem_map.mp ha
  rw [← hy]
  simp [Function.comp]

lemma motionScore_self (f : Frame) : motionScore f f = 0 := by
  simp only [motionScore, sameShape_self, if_true, diffCount_self]
  split <;> simp

lemma refSelectAuxM_still (τ : ℚ) (hτ : 0 < τ) :
    ∀ (srest : List Frame) (prev : Frame),
      List.Chain' Eq (prev :: srest) → refSelectAuxM τ prev srest = [] := by
  intro srest
  induction srest with
  | nil => intro prev _; rfl
  | cons c rest ih =>
      intro prev hchain
      obtain ⟨hpc, hrest⟩ := List.chain'_cons.mp hchain
      have hsc : motionScore prev c = 0 := by
        rw [hpc]
        exact motionScore_self c
      have hng : ¬ motionScore prev c > τ := by
        rw [hsc]
        exact fun h => absurd (lt_trans hτ h) (lt_irrefl 0)
      simp only [refSelectAuxM, if_neg hng]
      exact ih c hrest

lemma sampledAux_first (k : ℕ) :
    ∀ (l : List Frame) (cnt j : ℕ), 1 ≤ j → j = k - cnt % k →
      j ≤ l.length →
      sampledAux k cnt l
        = (l.drop (j - 1)).take 1 ++ sampledAux k (cnt + j) (l.drop j) := by
  intro l
  induction l with
  | nil =>
      intro cnt j h1 _ h3
      simp at h3
      omega
  | cons f rest ih =>
      intro cnt j h1 h2 h3
      have hk : 0 < k := by omega
      by_cases hks : (cnt + 1) % k = 0
      · have hj1 : j = 1 := by
          have := mod_succ_eq_zero k cnt hk hks
          omega
        subst hj1
        simp [sampledAux, hks]
      · have hmod := mod_succ_of_ne k cnt hk hks
        have hr : cnt % k < k := Nat.mod_lt _ hk
        have hj2 : 2 ≤ j := by
          have hlt : (cnt + 1) % k < k := Nat.mod_lt _ hk
          omega
        have hstep : j - 1 = k - (cnt + 1) % k := by
          rw [hmod]
          omega
        have hlen : j - 1 ≤ rest.length := by
          simp only [List.length_cons] at h3
          omega
        have hrec := ih (cnt + 1) (j - 1) (by omega) hstep hlen
        simp only [sampledAux, if_neg hks]
        rw [hrec]
        have hd1 : (f :: rest).drop (j - 1) = rest.drop (j - 1 - 1) := by
          conv_lhs => rw [show j - 1 = (j - 1 - 1) + 1 from by omega]
          rw [List.drop_succ_cons]
        have hd2 : (f :: rest).drop j = rest.drop (j - 1) := by
          conv_lhs => rw [show j = (j - 1) + 1 from by omega]
          rw [List.drop_succ_cons]
        have hc : cnt + 1 + (j - 1) = cnt + j := by omega
        rw [hd1, hd2, hc]

lemma sampledAux_subset (k : ℕ) :
    ∀ (l : List Frame) (cnt : ℕ) (f : Frame),
      f ∈ sampledAux k cnt l → f ∈ l := by
  intro l
  induction l with
  | nil => intro cnt f h; simp [sampledAux] at h
  | cons g rest ih =>
      intro cnt f h
      by_cases hks : (cnt + 1) % k = 0
      · rw [show sampledAux k cnt (g :: rest)
            = g :: sampledAux k (cnt + 1) rest from by
          simp [sampledAux, hks]] at h
        rcases List.mem_cons.mp h with h1 | h1
        · exact h1 ▸ List.mem_cons_self g rest
        · exact List.mem_cons_of_mem g (ih (cnt + 1) f h1)
      · rw [show sampledAux k cnt (g :: rest)
            = sampledAux k (cnt + 1) rest from by
          simp [sampledAux, hks]] at h
        exact List.mem_cons_of_mem g (ih (cnt + 1) f h)

lemma motionScore_eq_spec (h w : ℕ) (prev cur : Frame)
    (hp : isShape h w prev) (hc : isShape h w cur) :
    motionScore prev cur = specMotionScore h w prev cur := by
  obtain ⟨hpl, hpr⟩ := hp
  obtain ⟨hcl, hcr⟩ := hc
  have hss : sameShape prev cur = true := by
    simp only [sameShape, Bool.and_eq_true, beq_iff_eq, List.all_eq_true]
    refine ⟨by rw [hpl, hcl], ?_⟩
    intro rc hrc
    obtain ⟨r, c⟩ := rc
    obtain ⟨h1, h2⟩ := List.of_mem_zip hrc
    simp only [beq_iff_eq]
    rw [hpr r h1, hcr c h2]
  have hcount : diffCount prev cur = specPixelCount prev cur := by
    simp only [diffCount, specPixelCount]
    congr 1
    apply List.map_congr_left
    intro rc _
    rw [List.countP_map]
    apply List.countP_congr
    intro pq _
    by_cases h30 : 30 < max pq.1 pq.2 - min pq.1 pq.2 <;>
      simp [Function.comp, h30]
  have hhead : h ≠ 0 → (cur.headD []).length = w := by
    intro hh
    obtain ⟨r, t, hrt⟩ := List.exists_cons_of_ne_nil (l := cur) (by
      intro hnil
      rw [hnil] at hcl
      simp at hcl
      omega)
    rw [hrt, List.headD_cons]
    exact hcr r (by rw [hrt]; exact List.mem_cons_self r t)
  simp only [motionScore, hss, if_true, specMotionScore]
  by_cases hz : h * w = 0
  · have htz : cur.length * (cur.headD []).length = 0 := by
      rcases Nat.mul_eq_zero.mp hz with h0 | h0
      · rw [hcl, h0, Nat.zero_mul]
      · by_cases hh : h = 0
        · rw [hcl, hh, Nat.zero_mul]
        · rw [hhead hh, h0, Nat.mul_zero]
    rw [if_pos htz]
    have : ((w : ℚ) * (h : ℚ)) = 0 := by
      rcases Nat.mul_eq_zero.mp hz with h0 | h0 <;> simp [h0]
    rw [this, div_zero]
  · have hh : h ≠ 0 := fun h0 => hz (by rw [h0, Nat.zero_mul])
    have htz : cur.length * (cur.headD []).length = h * w := by
      rw [hcl, hhead hh]
    rw [htz, if_neg hz, hcount]
    rw [Nat.cast_mul, mul_comm]

lemma refSelectAux_congr (τ : ℚ) (h w : ℕ) :
    ∀ (srest : List Frame) (prev : Frame), isShape h w prev →
      (∀ f ∈ srest, isShape h w f) →
      refSelectAuxM τ prev srest = refSelectAux τ h w prev srest := by
  intro srest
  induction srest with
  | nil => intro prev _ _; rfl
  | cons c rest ih =>
      intro prev hp hall
      have hc := hall c (List.mem_cons_self c rest)
      have hsc := motionScore_eq_spec h w prev c hp hc
      have hrest := fun f hf => hall f (List.mem_cons_of_mem c hf)
      by_cases hm : motionScore prev c > τ
      · have hm' : specMotionScore h w prev c > τ := by rw [← hsc]; exact hm
        simp only [refSelectAuxM, refSelectAux, if_pos hm, if_pos hm']
        exact congrArg _ (ih c hc hrest)
      · have hm' : ¬ specMotionScore h w prev c > τ := fun hh =>
          hm (by rw [hsc]; exact hh)
        simp only [refSelectAuxM, refSelectAux, if_neg hm, if_neg hm']
        exact ih c hc hrest

end VideoLemmas

section VideoTheorems

/-- C5: for a readable video whose consecutive examined frames are all
identical (zero inter-frame intensity difference) and which is long enough
to contain at least one examined frame, the configured frame selector
returns exactly one frame — the first examined frame, frame number 30
(index 29), selected unconditionally. -/
theorem C5_zero_motion_single_frame (video : List Frame)
    (hlen : 30 ≤ video.length)
    (hstill : List.Chain' Eq (sampled 30 video)) :
    extractFramesConfig video = (video.drop 29).take 1 ∧
    (extractFramesConfig video).length = 1 := by
  have hA : extractFramesConfig video
      = (refSelectM (mkRat 3 10) 30 video).take 10 :=
    extract_eq_refSelectM (mkRat 3 10) 10 30 video
  have hfirst := sampledAux_first 30 video 0 30 (by norm_num) (by norm_num)
    (by omega)
  norm_num at hfirst
  have hd : video.drop 29 ≠ [] := by
    intro h
    have hlen2 := congrArg List.length h
    rw [List.length_drop] at hlen2
    simp at hlen2
    omega
  obtain ⟨v, t, hvt⟩ := List.exists_cons_of_ne_nil hd
  have htake : (video.drop 29).take 1 = [v] := by
    rw [hvt]
    rfl
  have hsampeq : sampled 30 video = v :: sampledAux 30 30 (video.drop 30) := by
    rw [sampled, hfirst, htake]
    rfl
  have hrefM : refSelectM (mkRat 3 10) 30 video = [v] := by
    simp only [refSelectM, hsampeq]
    rw [refSelectAuxM_still (mkRat 3 10) (by norm_num)
      (sampledAux 30 30 (video.drop 30)) v (hsampeq ▸ hstill)]
  constructor
  · rw [hA, hrefM, htake]
    rfl
  · rw [hA, hrefM]
    rfl

/-- Witness for C5 on a 35-frame constant video of 1×1 frames. -/
theorem C5_zero_motion_single_frame_witness :
    extractFramesConfig (List.replicate 35 [[0]])
      = ((List.replicate 35 ([[0]] : Frame)).drop 29).take 1 ∧
    (extractFramesConfig (List.replicate 35 [[0]])).length = 1 :=
  C5_zero_motion_single_frame (List.replicate 35 [[0]]) (by decide)
    (by rw [show sampled 30 (List.replicate 35 [[0]]) = [[[0]]] from rfl]
        exact List.chain'_singleton _)

/-- C7: the selector equals the reference selection over the examined
frames, truncated to the cap, where each examined frame after the first is
scored by the spec's formula — pixels differing by more than 30 divided by
width × height — against the immediately preceding examined frame (never
the previously selected one), since the baseline is replaced by every
examined frame. -/
theorem C7_score_and_baseline (τ : ℚ) (maxFrames interval h w : ℕ)
    (video : List Frame) (hshape : ∀ f ∈ video, isShape h w f) :
    extract_frames_with_motion_detection τ maxFrames interval video
      = (refSelect τ h w interval video).take maxFrames := by
  rw [extract_eq_refSelectM]
  congr 1
  rcases hs : sampled interval video with _ | ⟨f, srest⟩
  · simp only [refSelectM, refSelect, hs]
  · simp only [refSelectM, refSelect, hs]
    congr 1
    have hmemf : f ∈ sampledAux interval 0 video := by
      rw [show sampledAux interval 0 video = sampled interval video from rfl,
        hs]
      exact List.mem_cons_self f srest
    refine refSelectAux_congr τ h w srest f
      (hshape f (sampledAux_subset interval video 0 f hmemf)) ?_
    intro g hg
    have hmemg : g ∈ sampledAux interval 0 video := by
      rw [show sampledAux interval 0 video = sampled interval video from rfl,
        hs]
      exact List.mem_cons_of_mem f hg
    exact hshape g (sampledAux_subset interval video 0 g hmemg)

/-- Witness for C7 on a four-frame 2×2 video sampled every other frame. -/
theorem C7_score_and_baseline_witness :
    extract_frames_with_motion_detection (mkRat 3 10) 10 2
        [[[0, 0], [0, 0]], [[255, 255], [255, 255]],
         [[255, 255], [250, 250]], [[0, 0], [0, 0]]]
      = (refSelect (mkRat 3 10) 2 2 2
          [[[0, 0], [0, 0]], [[255, 255], [255, 255]],
           [[255, 255], [250, 250]], [[0, 0], [0, 0]]]).take 10 :=
  C7_score_and_baseline (mkRat 3 10) 10 2 2 2
    [[[0, 0], [0, 0]], [[255, 255], [255, 255]],
     [[255, 255], [250, 250]], [[0, 0], [0, 0]]]
    (by intro f hf; fin_cases hf <;> exact ⟨rfl, by decide⟩)

end VideoTheorems
